import Mathlib

/-!
# Verification of the penumbra-reindexer core

A shallow embedding of the penumbra-reindexer repository (Rust) into Lean 4,
together with theorems settling the frozen claims about its specification.

The embedding follows the source files:
* `src/cometbft.rs` — block and genesis value types, the block-source trait
  with its default `stream_blocks` implementation;
* `src/cometbft/remote.rs` — the remote JSON-RPC block source;
* `src/storage.rs` — the sqlite-backed archive store;
* `src/penumbra.rs` — regeneration plans, their truncation, and the
  regenerator driver (`run_to_inner` / `process_block`);
* `src/indexer.rs` — the postgres event indexer.

Modelling conventions:
* machine integers become `Nat`/`Int` with the explicit conversion checks the
  source performs (`i64::try_from`, `try_into`) reproduced as error paths;
* SQL tables become Lean lists of row structures, with row ids assigned the
  way the databases assign them (`rowid` sequences starting at 1); SQL
  statements are translated to list operations with the statement's
  relational semantics;
* external byte-level serialization (prost protobuf for blocks, serde JSON
  for geneses) is modelled structurally: the encoded form of a value is the
  structured value itself, and decoding re-performs exactly the checks the
  repository's own decoding code performs (header presence, sign checks);
* fallible Rust functions returning `anyhow::Result` become `Except String`;
* the versioned Penumbra application crates are external to this repository
  and are modelled as an abstract deterministic state machine, matching the
  `Penumbra` trait in `src/penumbra.rs`.
-/

namespace Reindexer

/-- Byte strings (`Vec<u8>`) are modelled as lists of naturals. -/
abbrev Bytes := List Nat

/-- `type RootHash = [u8; 32]` from `src/penumbra.rs`. -/
abbrev RootHash := List Nat

/-! ## Block and genesis value types (`src/cometbft.rs`) -/

/-- The parts of the protobuf block header (`pb::Header`) that the
reindexer core reads: the `height` (an `i64` on the wire) and the
`chain_id` string. -/
structure PbHeader where
  height : Int
  chainId : String
  deriving DecidableEq

/-- The parts of the protobuf block (`pb::Block`) the core reads: the
optional header, and the ordered list of raw transaction byte strings. -/
structure PbBlock where
  header : Option PbHeader
  data : List Bytes
  deriving DecidableEq

/-- `struct Block` from `src/cometbft.rs`: the inner protobuf block plus the
cached `height` field. -/
structure Block where
  inner : PbBlock
  height : Nat
  deriving DecidableEq

namespace Block

/-- `Block::encode`: `self.inner.encode_to_vec()`. The prost byte
serialization is modelled structurally, so encoding yields the inner
protobuf value. -/
def encode (b : Block) : PbBlock :=
  b.inner

/-- `Block::decode`: decode the protobuf value, then cache the height from
the header, failing if the header is absent or the `i64` height does not
convert to `u64` (i.e. is negative). -/
def decode (data : PbBlock) : Except String Block :=
  match data.header with
  | none => .error "block should have header"
  | some h =>
      if h.height < 0 then .error "out of range integral type conversion attempted"
      else .ok { inner := data, height := h.height.toNat }

/-- Well-formedness of an in-memory block: the cached height is the header's
height, which is a non-negative `i64`. Every block produced by
`Block::decode` (the only constructor the program uses) satisfies this. -/
def WF (b : Block) : Prop :=
  match b.inner.header with
  | none => False
  | some h => 0 ≤ h.height ∧ h.height < 2 ^ 63 ∧ b.height = h.height.toNat

instance : DecidablePred WF := by
  intro b
  unfold WF
  cases b.inner.header <;> infer_instance

end Block

/-- `struct Genesis` from `src/cometbft.rs`: the core reads its
`initial_height` (a positive `i64`, converted to `u64`) and `chain_id`; the
application-state subtree is passed through opaquely and modelled as an
opaque string. -/
structure Genesis where
  initialHeight : Nat
  chainId : String
  appState : String
  deriving DecidableEq

/-! ## The archive store (`src/storage.rs`) -/

/-- A blob stored in the archive's `blobs` table: either an encoded block or
an encoded genesis document (byte serialization modelled structurally). -/
inductive Blob where
  | blockBlob (b : PbBlock)
  | genesisBlob (g : Genesis)
  deriving DecidableEq

/-- Decoding a block from a blob: succeeds exactly when the blob is an
encoded block that `Block::decode` accepts. -/
def decodeBlockBlob : Blob → Except String Block
  | .blockBlob b => Block.decode b
  | .genesisBlob _ => .error "failed to decode Protobuf message"

/-- Decoding a genesis from a blob. -/
def decodeGenesisBlob : Blob → Except String Genesis
  | .blockBlob _ => .error "expected value at line 1"
  | .genesisBlob g => .ok g

/-- `const VERSION` from `src/storage.rs`. -/
def VERSION : String := "penumbra-reindexer-archive-v1"

/-- The archive database (`src/storage.rs`): the single-row `metadata`
table, the `blobs` table (rowid `i+1` holds `blobs[i]`), and the `blocks`
and `geneses` tables mapping a height to a blob rowid (`data_id`). -/
structure ArchiveDb where
  metadata : Option (String × String)
  blobs : List Blob
  blocks : List (Nat × Nat)
  geneses : List (Nat × Nat)
  deriving DecidableEq

/-- The archive database created by `create_tables` on a fresh file. -/
def ArchiveDb.empty : ArchiveDb :=
  { metadata := none, blobs := [], blocks := [], geneses := [] }

namespace Storage

/-- `i64::try_from` on a `u64` value: fails iff the value does not fit. -/
def toI64 (n : Nat) : Except String Nat :=
  if n < 2 ^ 63 then .ok n
  else .error "out of range integral type conversion attempted"

/-- `Storage::init`'s `populate_metadata` (together with the idempotent
`create_tables`, which never alters an existing database): read the
`metadata` row; bail if there is none and no chain id was supplied; if a row
exists, check the version tag and (when supplied) the chain id; otherwise
insert the `(VERSION, chain_id)` row. Returns the outcome together with the
database state after the call (the state is unchanged on every failing
path, since the only write is the final insert). -/
def init (db : ArchiveDb) (chainId : Option String) :
    Except String Unit × ArchiveDb :=
  match db.metadata, chainId with
  | none, none =>
      (.error "expected archive database to already be initialized", db)
  | some (version, archiveChainId), cid =>
      if version ≠ VERSION then
        (.error ("expected version '" ++ VERSION ++ "' found '" ++ version ++ "'"), db)
      else
        match cid with
        | some c =>
            if archiveChainId ≠ c then
              (.error ("expected chain_id '" ++ c ++ "' found '" ++ archiveChainId ++ "'"), db)
            else (.ok (), db)
        | none => (.ok (), db)
  | none, some c =>
      (.ok (), { db with metadata := some (VERSION, c) })

/-- `Storage::chain_id`: `SELECT chain_id FROM metadata` with `fetch_one`,
which fails when the table is empty. -/
def chain_id (db : ArchiveDb) : Except String String :=
  match db.metadata with
  | none => .error "no rows returned by a query that expected to return at least one row"
  | some (_, cid) => .ok cid

/-- `Storage::put_block`: inside a transaction, fail if a block at that
height already exists, otherwise insert the blob (receiving its rowid as
`data_id`) and then the block row. On failure the transaction is rolled
back, so no state is returned. -/
def put_block (db : ArchiveDb) (block : Block) : Except String ArchiveDb :=
  match toI64 block.height with
  | .error e => .error e
  | .ok height =>
      if db.blocks.any (fun r => r.1 = height) then
        .error ("block at height " ++ toString height ++ " already exists")
      else
        let dataId := db.blobs.length + 1
        .ok { db with
              blobs := db.blobs ++ [.blockBlob block.encode],
              blocks := db.blocks ++ [(height, dataId)] }

/-- `Storage::put_genesis`: a no-op if a genesis with the same
`initial_height` is already present, otherwise insert blob then genesis
row. -/
def put_genesis (db : ArchiveDb) (genesis : Genesis) : Except String ArchiveDb :=
  match toI64 genesis.initialHeight with
  | .error e => .error e
  | .ok initialHeight =>
      if db.geneses.any (fun r => r.1 = initialHeight) then
        .ok db
      else
        let dataId := db.blobs.length + 1
        .ok { db with
              blobs := db.blobs ++ [.genesisBlob genesis],
              geneses := db.geneses ++ [(initialHeight, dataId)] }

/-- `SELECT (data) FROM blocks JOIN blobs ON data_id = blobs.rowid WHERE
height = ?` with `fetch_optional`: the joined blob of the unique block row
at that height, if both exist. -/
def lookupJoin (rows : List (Nat × Nat)) (blobs : List Blob) (key : Nat) :
    Option Blob :=
  match rows.find? (fun r => r.1 = key) with
  | none => none
  | some (_, dataId) => blobs[dataId - 1]?

/-- `Storage::get_block`: fetch and decode the block at a height. -/
def get_block (db : ArchiveDb) (height : Nat) : Except String (Option Block) :=
  match toI64 height with
  | .error e => .error e
  | .ok h =>
      match lookupJoin db.blocks db.blobs h with
      | none => .ok none
      | some blob => (decodeBlockBlob blob).map some

/-- `Storage::get_genesis`: fetch and decode the genesis at an initial
height. -/
def get_genesis (db : ArchiveDb) (initialHeight : Nat) :
    Except String (Option Genesis) :=
  match toI64 initialHeight with
  | .error e => .error e
  | .ok h =>
      match lookupJoin db.geneses db.blobs h with
      | none => .ok none
      | some blob => (decodeGenesisBlob blob).map some

/-- `Storage::block_does_exist`: `SELECT EXISTS(...)`. -/
def block_does_exist (db : ArchiveDb) (height : Nat) : Except String Bool :=
  match toI64 height with
  | .error e => .error e
  | .ok h => .ok (db.blocks.any (fun r => r.1 = h))

/-- `Storage::genesis_does_exist`. -/
def genesis_does_exist (db : ArchiveDb) (initialHeight : Nat) :
    Except String Bool :=
  match toI64 initialHeight with
  | .error e => .error e
  | .ok h => .ok (db.geneses.any (fun r => r.1 = h))

/-- `Storage::last_height`: `SELECT MAX(height) FROM blocks` with
`fetch_optional`. SQLite returns a single row even when the table is
empty, and the sqlx SQLite driver decodes the `NULL` aggregate of that row
into `i64` as `0`, so the result is always `Some`: `Some 0` on an empty
table, the maximum stored height otherwise (one value, coinciding with the
fold's base case). The final `try_into` to `u64` always succeeds because
stored heights are non-negative. -/
def last_height (db : ArchiveDb) : Except String (Option Nat) :=
  .ok (some (db.blocks.foldr (fun r acc => max r.1 acc) 0))

end Storage

/-! ## Regeneration plans (`src/penumbra.rs`) -/

/-- `enum Version`: the closed, build-time registry of application
versions. -/
inductive Version where
  | V0o79
  | V0o80
  | V1o3
  | V1o4
  | V2
  deriving DecidableEq

/-- `enum RegenerationStep`. -/
inductive RegenerationStep where
  | Migrate (fromV toV : Version)
  | InitThenRunTo (genesis_height : Nat) (version : Version) (last_block : Option Nat)
  | RunTo (version : Version) (last_block : Option Nat)
  deriving DecidableEq

namespace RegenerationStep

/-- `RegenerationStep::with_moved_start`. The source's `InitThenRunTo` arm
delegates to the `RunTo` arm (`RunTo { version, last_block
}.with_moved_start(start)`); that call is inlined here, which is the same
computation. -/
def with_moved_start (step : RegenerationStep) (start : Nat) :
    Option RegenerationStep :=
  match step with
  | Migrate _ _ => none
  | InitThenRunTo genesis_height version last_block =>
      if genesis_height > start then some (InitThenRunTo genesis_height version last_block)
      else
        match last_block with
        | none => some (RunTo version none)
        | some x => if x > start then some (RunTo version (some x)) else none
  | RunTo version last_block =>
      match last_block with
      | none => some (RunTo version none)
      | some x => if x > start then some (RunTo version (some x)) else none

/-- `RegenerationStep::with_moved_stop`'s inner `move_last_block`. -/
def move_last_block (last_block : Option Nat) (stop : Nat) : Option Nat :=
  match last_block with
  | none => some stop
  | some x => if x > stop then some stop else some x

/-- `RegenerationStep::with_moved_stop`. -/
def with_moved_stop (step : RegenerationStep) (stop : Nat) : RegenerationStep :=
  match step with
  | InitThenRunTo genesis_height version last_block =>
      InitThenRunTo genesis_height version (move_last_block last_block stop)
  | RunTo version last_block => RunTo version (move_last_block last_block stop)
  | Migrate a b => Migrate a b

end RegenerationStep

/-- `struct RegenerationPlan`. -/
structure RegenerationPlan where
  steps : List (Nat × RegenerationStep)
  deriving DecidableEq

namespace RegenerationPlan

/-- `RegenerationPlan::truncate`: relocate or drop steps below `start`, then
drop steps at or past `stop` and clamp the survivors' `last_block`. -/
def truncate (plan : RegenerationPlan) (start stop : Option Nat) :
    RegenerationPlan :=
  let start := start.getD 0
  let steps := plan.steps.filterMap (fun p =>
    if start ≤ p.1 then some p
    else (p.2.with_moved_start start).map (fun x => (start, x)))
  let steps := steps.filterMap (fun p =>
    match stop with
    | some stop => if p.1 ≥ stop then none else some (p.1, p.2.with_moved_stop stop)
    | none => some p)
  ⟨steps⟩

/-- `RegenerationPlan::penumbra_testnet_phobos_2` (including the upstream
`23583289` literal for the second migration boundary). -/
def penumbra_testnet_phobos_2 : RegenerationPlan :=
  ⟨[ (0, .InitThenRunTo 1 .V0o80 (some 1459799)),
     (1459799, .Migrate .V0o80 .V1o3),
     (1459799, .InitThenRunTo 1459800 .V1o3 (some 2358329)),
     (23583289, .Migrate .V1o3 .V2),
     (2358329, .InitThenRunTo 2358330 .V2 none) ]⟩

/-- `RegenerationPlan::penumbra_testnet_phobos_3`. -/
def penumbra_testnet_phobos_3 : RegenerationPlan :=
  ⟨[ (0, .InitThenRunTo 1 .V2 none) ]⟩

/-- `RegenerationPlan::penumbra_1`. -/
def penumbra_1 : RegenerationPlan :=
  ⟨[ (0, .InitThenRunTo 1 .V0o79 (some 501974)),
     (501974, .Migrate .V0o79 .V0o80),
     (501974, .InitThenRunTo 501975 .V0o80 (some 2611799)),
     (2611799, .Migrate .V0o80 .V1o3),
     (2611799, .InitThenRunTo 2611800 .V1o3 (some 4378761)),
     (4378761, .Migrate .V1o3 .V1o4),
     (4378761, .InitThenRunTo 4378762 .V1o4 (some 5480872)),
     (5480872, .InitThenRunTo 5480873 .V2 none) ]⟩

/-- `RegenerationPlan::from_known_chain_id`. -/
def from_known_chain_id (chainId : String) : Option RegenerationPlan :=
  if chainId = "penumbra-1" then some penumbra_1
  else if chainId = "penumbra-testnet-phobos-2" then some penumbra_testnet_phobos_2
  else if chainId = "penumbra-testnet-phobos-3" then some penumbra_testnet_phobos_3
  else none

end RegenerationPlan

/-! ## Block sources (`src/cometbft.rs` trait `Store` and
`src/cometbft/remote.rs`) -/

/-- An abstract store implementing the `Store` trait's three primitive
operations (`get_genesis`, `get_height_bounds`, `get_block`), used by the
default `stream_blocks` implementation and by the local (FFI-backed)
store. The primitives are deterministic functions of the store, matching a
store whose backing data does not change during the stream. -/
structure StoreModel where
  heightBounds : Option (Nat × Nat)
  blockAt : Nat → Option Block
  genesisDoc : Except String Genesis

/-- The element-by-element loop of the default `stream_blocks`: for each
height, fetch the block, failing (and closing the stream) if absent. The
result is the yielded prefix together with the terminating error, if any. -/
def collectBlocks (blockAt : Nat → Option Block) : List Nat → List (Nat × Block) × Option String
  | [] => ([], none)
  | h :: rest =>
      match blockAt h with
      | none => ([], some ("expected block at height " ++ toString h))
      | some b =>
          let r := collectBlocks blockAt rest
          ((h, b) :: r.1, r.2)

/-- The default `Store::stream_blocks` implementation: clamp the requested
bounds into `get_height_bounds` (failing when the source is empty), then
yield every block of the clamped inclusive range in sequence. -/
def stream_blocks_default (s : StoreModel) (start endQ : Option Nat) :
    List (Nat × Block) × Option String :=
  match s.heightBounds with
  | none => ([], some "stream_blocks expects height bounds to exist")
  | some (first, last) =>
      let lo := match start with | some x => max first x | none => first
      let hi := match endQ with | some x => min last x | none => last
      collectBlocks s.blockAt (List.range' lo (hi + 1 - lo))

/-- The remote store (`RemoteStore`), abstracted over its two RPCs: the
`/status` height bounds and the `/block_search` batch query
`get_blocks(lo..hi)` (the stream always requests `hi = lo + 100`,
mirroring `BLOCKS_AT_A_TIME`/`per_page=100`). -/
structure RemoteModel where
  bounds : Option (Nat × Nat)
  getBlocks : Nat → Nat → List Block
  genesisDoc : Except String Genesis

/-- The outcome of observing a lazy block stream: it finished, it yielded
an error element and closed, or it is still producing (the observation
fuel ran out; the real stream polls a live source indefinitely). -/
inductive StreamOutcome where
  | done
  | failed (msg : String)
  | diverged
  deriving DecidableEq

/-- The `for block in buf` loop of `RemoteStore::stream_blocks`: yield the
batch's blocks one by one, incrementing the expected height, and stop with
an `unexpected block height` error on the first block whose self-reported
height differs from the expected next height. Returns the yielded pairs,
the next expected height, and the error if one occurred. -/
def processBatch : List Block → Nat → List (Nat × Block) × Nat × Option String
  | [], h => ([], h, none)
  | b :: rest, h =>
      if b.height = h then
        let r := processBatch rest (h + 1)
        ((h, b) :: r.1, r.2)
      else ([], h, some ("unexpected block height: " ++ toString b.height))

/-- The inner `while height <= most_recent` loop of
`RemoteStore::stream_blocks`: request batches of 100 blocks, failing on an
empty batch, until the expected height passes `most_recent`. The loop of
the source advances by at least one height per iteration, so `fuel`
iterations with `fuel ≥ most_recent + 1 - height` reproduce it exactly. -/
def streamInner (m : RemoteModel) (mostRecent : Nat) :
    Nat → Nat → List (Nat × Block) × Nat × StreamOutcome
  | 0, height => ([], height, if height ≤ mostRecent then .diverged else .done)
  | fuel + 1, height =>
      if height ≤ mostRecent then
        let buf := m.getBlocks height (height + 100)
        if buf.isEmpty then ([], height, .failed "RPC returned an empty list of blocks")
        else
          match processBatch buf height with
          | (ys, h', some msg) => (ys, h', .failed msg)
          | (ys, h', none) =>
              let r := streamInner m mostRecent fuel h'
              (ys ++ r.1, r.2)
      else ([], height, .done)

/-- The outer polling loop of `RemoteStore::stream_blocks`: while the end
bound (if any) has not been passed, read the current tip from
`get_height_bounds`, clamp it by the end bound, run the inner loop, and
poll again. `fuel` bounds the number of polls observed. -/
def streamOuter (m : RemoteModel) (endQ : Option Nat) :
    Nat → Nat → List (Nat × Block) × StreamOutcome
  | 0, _ => ([], .diverged)
  | fuel + 1, height =>
      if (endQ.map (fun x => decide (height ≤ x))).getD true then
        match m.bounds with
        | none => ([], .failed "RPC did not return any height bounds")
        | some (_, latest) =>
            let mostRecent := match endQ with | some e => min latest e | none => latest
            match streamInner m mostRecent (mostRecent + 1 - height) height with
            | (ys, _, .failed msg) => (ys, .failed msg)
            | (ys, _, .diverged) => (ys, .diverged)
            | (ys, h', .done) =>
                let r := streamOuter m endQ fuel h'
                (ys ++ r.1, r.2)
      else ([], .done)

/-- `RemoteStore::stream_blocks(start, end)`: the expected height starts at
`start.unwrap_or(1)`. -/
def stream_blocks_remote (m : RemoteModel) (start endQ : Option Nat) (fuel : Nat) :
    List (Nat × Block) × StreamOutcome :=
  streamOuter m endQ fuel (start.getD 1)

/-- A remote source backed by a contiguous range of blocks `[first, last]`:
`/status` reports those bounds, and `block_search` over `[lo, hi)` returns
exactly the stored blocks of that range, in ascending order. -/
def canonicalRemote (first last : Nat) (blockAt : Nat → Block)
    (g : Except String Genesis) : RemoteModel :=
  { bounds := some (first, last),
    getBlocks := fun lo hi =>
      ((List.range' lo (hi - lo)).filter (fun h => first ≤ h && h ≤ last)).map blockAt,
    genesisDoc := g }

/-- A minimal block whose self-reported height is `h`, for mocked sources. -/
def mockBlock (h : Nat) : Block :=
  { inner := { header := some { height := (h : Int), chainId := "mock" }, data := [] },
    height := h }

/-- The mocked RPC of the remote-stream scenario: asked for the batch
starting at height 1, it returns blocks with self-reported heights
`[1, 2, 4]`. -/
def mockRemote124 : RemoteModel :=
  { bounds := some (1, 3),
    getBlocks := fun lo _hi =>
      if lo = 1 then [mockBlock 1, mockBlock 2, mockBlock 4] else [],
    genesisDoc := .error "no genesis" }

/-! ## ABCI events and transaction results (`src/tendermint_compat.rs`) -/

/-- `struct Event` from `src/tendermint_compat.rs`: a kind plus ordered
attributes `(key, value, indexed)`. The source stores key and value as raw
byte vectors and decodes them as UTF-8 when writing attribute rows; the
model represents them as strings directly (i.e. restricts attention to
valid UTF-8 attributes, the only ones the indexer accepts). -/
structure Event where
  kind : String
  attributes : List (String × String × Bool)
  deriving DecidableEq

/-- Modelled from the spec: `ResponseDeliverTx` is referenced from
`src/indexer.rs` and `src/penumbra.rs` but its definition (in
`src/tendermint_compat.rs`) is not part of the provided sources. Per the
spec's `TxResult` data model it carries `(code, data-bytes, log, info,
gas_wanted, gas_used, events, codespace)`. -/
structure ResponseDeliverTx where
  code : Nat
  data : Bytes
  log : String
  info : String
  gasWanted : Int
  gasUsed : Int
  events : List Event
  codespace : String
  deriving DecidableEq

/-- Modelled from the spec: `ResponseDeliverTx::with_defaults` — "Let
`resp = with_defaults(result)` where failure maps to `{code=1, log=err}`";
per §7, a tx-delivery failure is recorded as a coded tx result
(`code≠0`, `log=err-message`) with empty events, and a success carries the
delivered events with zero code and defaulted remaining fields. -/
def ResponseDeliverTx.with_defaults : Except String (List Event) → ResponseDeliverTx
  | .ok events =>
      { code := 0, data := [], log := "", info := "", gasWanted := 0, gasUsed := 0,
        events := events, codespace := "" }
  | .error e =>
      { code := 1, data := [], log := e, info := "", gasWanted := 0, gasUsed := 0,
        events := [], codespace := "" }

/-- Modelled from the spec: the wire encoding produced by
`ResponseDeliverTx::encode_to_latest_tx_result` (not part of the provided
sources) — "a stored encoding of the tx result that matches the upstream
consensus-engine `TxResult` wire format at `(height, index, tx_bytes,
exec_result)`". The byte serialization is modelled structurally as the
quadruple itself. -/
structure TxResultWire where
  height : Int
  index : Nat
  tx : Bytes
  result : ResponseDeliverTx
  deriving DecidableEq

/-- Modelled from the spec: structural stand-in for
`encode_to_latest_tx_result(height as i64, index as u32, raw_tx)`. -/
def ResponseDeliverTx.encode_to_latest_tx_result (r : ResponseDeliverTx)
    (height : Int) (index : Nat) (tx : Bytes) : TxResultWire :=
  { height := height, index := index, tx := tx, result := r }

/-- `height as i64`: the wrapping cast of a `u64` into an `i64`. -/
def i64Cast (n : Nat) : Int :=
  if n % 2 ^ 64 < 2 ^ 63 then ((n % 2 ^ 64 : Nat) : Int)
  else ((n % 2 ^ 64 : Nat) : Int) - 2 ^ 64

/-- `index as u32`: the wrapping cast of a `usize` into a `u32`. -/
def u32Cast (n : Nat) : Nat := n % 2 ^ 32

/-- The uppercase-hex SHA-256 digest of the raw transaction
(`sha2::Sha256::digest(raw_tx).encode_hex_upper()`). The sha2 crate is
external to this repository; the model abstracts it as a deterministic
function of the input bytes. -/
def sha256HexUpper (bs : Bytes) : String :=
  "SHA-256:" ++ toString bs

/-! ## The event indexer (`src/indexer.rs`) -/

/-- A row of the index's `blocks` table: `(rowid, height, chain_id)`. The
`created_at CURRENT_TIMESTAMP` column is wall-clock input and is not
modelled. -/
structure BlockRow where
  rowid : Nat
  height : Nat
  chainId : String
  deriving DecidableEq

/-- A row of `tx_results`: `(rowid, block_id, index, tx_hash,
tx_result_bytes)`; `created_at` is not modelled. -/
structure TxRow where
  rowid : Nat
  blockId : Nat
  txIndex : Nat
  txHash : String
  txResult : TxResultWire
  deriving DecidableEq

/-- A row of `events`: `(rowid, block_id, tx_id, type)`. -/
structure EventRow where
  rowid : Nat
  blockId : Nat
  txId : Option Nat
  kind : String
  deriving DecidableEq

/-- A row of `attributes`: `(event_id, key, composite_key, value)`. -/
structure AttrRow where
  eventId : Nat
  key : String
  compositeKey : String
  value : String
  deriving DecidableEq

/-- A row of `debug.app_hash`: `(block_id, app_hash)` (the synthetic rowid
of this table is never read and is not modelled). -/
structure AppHashRow where
  blockId : Nat
  appHash : RootHash
  deriving DecidableEq

/-- The event-index database: the five tables, plus the auto-increment
sequences assigning the next rowid for `blocks`, `tx_results`, and
`events`. -/
structure IndexerDb where
  blocks : List BlockRow
  txResults : List TxRow
  events : List EventRow
  attributes : List AttrRow
  appHashes : List AppHashRow
  nextBlockId : Nat
  nextTxId : Nat
  nextEventId : Nat
  deriving DecidableEq

/-- An empty index database whose sequences stand at the given values. -/
def IndexerDb.emptyWith (b t e : Nat) : IndexerDb :=
  { blocks := [], txResults := [], events := [], attributes := [], appHashes := [],
    nextBlockId := b, nextTxId := t, nextEventId := e }

/-- `struct Context` from `src/indexer.rs`: the per-block transaction,
holding the block id and the transaction's view of the database. -/
structure IndexerCtx where
  blockId : Nat
  dbtx : IndexerDb
  deriving DecidableEq

/-- `struct Indexer`: the committed database, the optional per-block
context, and the `allow_existing_data` option. The two ghost fields record
what is passed to the indexer (every event argument of `events`, every app
hash argument of `end_block`), for stating observational properties; no
operation reads them. -/
structure Indexer where
  db : IndexerDb
  context : Option IndexerCtx
  allow_existing_data : Bool
  emitted : List Event
  hashesPassed : List RootHash

/-- A fresh indexer over an empty database (sequences at 1, as in a fresh
postgres schema). -/
def Indexer.fresh (allow : Bool) : Indexer :=
  { db := IndexerDb.emptyWith 1 1 1, context := none,
    allow_existing_data := allow, emitted := [], hashesPassed := [] }

/-- `fetch_block_id`: `SELECT rowid FROM blocks WHERE height = $1` with
`fetch_optional` (and the `i64::try_from(height)?` bind). -/
def fetch_block_id (d : IndexerDb) (height : Nat) : Except String (Option Nat) :=
  match Storage.toI64 height with
  | .error e => .error e
  | .ok h => .ok ((d.blocks.find? (fun r => r.height = h)).map (fun r => r.rowid))

/-- `block_exists`. -/
def block_exists (d : IndexerDb) (height : Nat) : Except String Bool :=
  match fetch_block_id d height with
  | .error e => .error e
  | .ok found => .ok found.isSome

/-- `tx_exists`: `EXISTS` over `tx_results JOIN blocks ON blocks.rowid =
tx_results.block_id WHERE height = $1 AND index = $2`. -/
def tx_exists (d : IndexerDb) (height index : Nat) : Except String Bool :=
  match Storage.toI64 height with
  | .error e => .error e
  | .ok h =>
      match Storage.toI64 index with
      | .error e => .error e
      | .ok i =>
          .ok (d.txResults.any (fun tr =>
            d.blocks.any (fun br =>
              br.rowid = tr.blockId && br.height = h && tr.txIndex = i)))

/-- The synthetic per-block event emitted by `enter_block`:
`kind = "block"`, attributes `[("height", height, indexed=true)]`. -/
def blockPseudoEvent (height : Nat) : Event :=
  { kind := "block", attributes := [("height", toString height, true)] }

/-- The final loop of `Indexer::events`: insert one `events` row per event
(consuming an `events` rowid each) and one `attributes` row per attribute,
with `composite_key = kind "." key`. -/
def insertEventRows (blockId : Nat) (txId : Option Nat) :
    IndexerDb → List Event → IndexerDb
  | dbtx, [] => dbtx
  | dbtx, ev :: rest =>
      let eventId := dbtx.nextEventId
      let dbtx :=
        { dbtx with
          events := dbtx.events ++ [{ rowid := eventId, blockId := blockId,
                                      txId := txId, kind := ev.kind }],
          nextEventId := eventId + 1,
          attributes := dbtx.attributes ++ ev.attributes.map (fun a =>
            { eventId := eventId, key := a.1,
              compositeKey := ev.kind ++ "." ++ a.1, value := a.2.1 }) }
      insertEventRows blockId txId dbtx rest

/-- `Indexer::events`: must be inside a block (the source asserts by
panicking, modelled as an error); under `allow_existing_data`, skip when
the tx row (for tx-scoped calls) or the block row (for block-scoped calls)
already exists in the transaction's view; otherwise insert the tx row (with
hash and encoded result) and the two synthetic tx events for a tx-scoped
call, then the event and attribute rows. -/
def Indexer.events (ix : Indexer) (height : Nat) (evs : List Event)
    (tx : Option (Nat × Bytes × ResponseDeliverTx)) : Except String Indexer :=
  match ix.context with
  | none => .error "panicked: we should be inside a block before indexing events"
  | some context =>
      let ix' := { ix with emitted := ix.emitted ++ evs }
      let skipE : Except String Bool :=
        if ix.allow_existing_data then
          match tx with
          | some (index, _, _) => tx_exists context.dbtx height index
          | none => block_exists context.dbtx height
        else .ok false
      match skipE with
      | .error e => .error e
      | .ok true => .ok ix'
      | .ok false =>
          match tx with
          | none =>
              let dbtx := insertEventRows context.blockId none context.dbtx evs
              .ok { ix' with context := some { context with dbtx := dbtx } }
          | some (index, rawTx, execResult) =>
              if index < 2 ^ 31 then
                let txHash := sha256HexUpper rawTx
                let txResultBytes := execResult.encode_to_latest_tx_result
                  (i64Cast height) (u32Cast index) rawTx
                let txId := context.dbtx.nextTxId
                let dbtx :=
                  { context.dbtx with
                    txResults := context.dbtx.txResults
                      ++ [{ rowid := txId, blockId := context.blockId,
                            txIndex := index, txHash := txHash,
                            txResult := txResultBytes }],
                    nextTxId := txId + 1 }
                let pseudo : List Event :=
                  [{ kind := "tx", attributes := [("hash", txHash, true)] },
                   { kind := "tx", attributes := [("height", toString height, true)] }]
                let dbtx := insertEventRows context.blockId (some txId) dbtx (pseudo ++ evs)
                .ok { ix' with context := some { context with dbtx := dbtx } }
              else .error "out of range integral type conversion attempted"

/-- `Indexer::enter_block`: asserts no context is active, opens the
per-block transaction, inserts or looks up the block row at `height`
(failing on a pre-existing row unless `allow_existing_data`), sets the
context, and emits the synthetic block event through `events`. -/
def Indexer.enter_block (ix : Indexer) (height : Nat) (chainId : String) :
    Except String Indexer :=
  match ix.context with
  | some _ => .error "panicked: assertion failed: self.context.is_none()"
  | none =>
      match fetch_block_id ix.db height with
      | .error e => .error e
      | .ok none =>
          let blockId := ix.db.nextBlockId
          let dbtx := { ix.db with
                        blocks := ix.db.blocks ++ [{ rowid := blockId, height := height,
                                                     chainId := chainId }],
                        nextBlockId := blockId + 1 }
          Indexer.events { ix with context := some { blockId := blockId, dbtx := dbtx } }
            height [blockPseudoEvent height] none
      | .ok (some id) =>
          if ix.allow_existing_data then
            Indexer.events { ix with context := some { blockId := id, dbtx := ix.db } }
              height [blockPseudoEvent height] none
          else .error ("block at height " ++ toString height ++ " has already been indexed")

/-- `Indexer::end_block`: record the app hash (skipping a pre-existing
`debug.app_hash` row under `allow_existing_data`) and commit the per-block
transaction. -/
def Indexer.end_block (ix : Indexer) (appHash : RootHash) : Except String Indexer :=
  match ix.context with
  | none => .error "panicked: we should be inside a block before ending it"
  | some context =>
      let skip : Bool :=
        ix.allow_existing_data &&
          context.dbtx.appHashes.any (fun r => r.blockId = context.blockId)
      let dbtx :=
        if skip then context.dbtx
        else { context.dbtx with
               appHashes := context.dbtx.appHashes
                 ++ [{ blockId := context.blockId, appHash := appHash }] }
      let hashes := ix.hashesPassed ++ [appHash]
      .ok { ix with db := dbtx, context := none, hashesPassed := hashes }

/-! ## The regenerator driver (`src/penumbra.rs`) -/

/-- The view of a block that `Regenerator::process_block` reads after
converting the archived block into the compat types (`block.try_into()?`
and `tendermint_v0o40::Block::from`): its height, the header's chain id,
and the ordered raw transactions. -/
structure CBlock where
  height : Nat
  chainId : String
  data : List Bytes
  deriving DecidableEq

/-- The conversion of an archived block into the driver's view; fails when
the block has no header, as the compat conversion does. -/
def Block.toCBlock (b : Block) : Except String CBlock :=
  match b.inner.header with
  | none => .error "block should have header"
  | some h => .ok { height := b.height, chainId := h.chainId, data := b.inner.data }

/-- The `Penumbra` trait of `src/penumbra.rs`, the build-time registry's
common lifecycle interface. The versioned application crates are external
to this repository; an implementation is modelled as a deterministic state
machine over an abstract state type `σ`: `genesis`, `begin_block` (fed the
begin-block request derived from the block), `deliver_tx` (fed the raw tx
bytes; failures are values, not aborts), `end_block` (fed the `i64`
height), and `commit` producing the 32-byte root hash. -/
structure PenumbraSM (σ : Type) where
  genesisOp : σ → Genesis → Except String σ
  begin_block : σ → CBlock → σ × List Event
  deliver_tx : σ → Bytes → σ × Except String (List Event)
  end_block : σ → Int → σ × List Event
  commit : σ → σ × Except String RootHash

/-- The `for (i, tx) in block_tendermint.data.into_iter().enumerate()` loop
of `process_block`: deliver each transaction, pass its events (empty on
failure) and the defaulted response to the indexer. -/
def deliverLoop {σ : Type} (sm : PenumbraSM σ) :
    σ → Indexer → Nat → List Bytes → Nat → Except String (σ × Indexer)
  | st, ix, _, [], _ => .ok (st, ix)
  | st, ix, height, tx :: rest, i =>
      let r := sm.deliver_tx st tx
      let evs := match r.2 with | .ok e => e | .error _ => []
      match r.1, Indexer.events ix height evs
          (some (i, tx, ResponseDeliverTx.with_defaults r.2)) with
      | _, .error e => .error e
      | st, .ok ix => deliverLoop sm st ix height rest (i + 1)

/-- `Regenerator::process_block`: enter the block, index the begin-block
events, deliver every transaction, index the end-block events, commit, and
pass the resulting root hash to `Indexer::end_block`. -/
def process_block {σ : Type} (sm : PenumbraSM σ) (st : σ) (ix : Indexer)
    (height : Nat) (b : Block) : Except String (σ × Indexer) :=
  match b.toCBlock with
  | .error e => .error e
  | .ok cb =>
      match ix.enter_block height cb.chainId with
      | .error e => .error e
      | .ok ix =>
          let r1 := sm.begin_block st cb
          match Indexer.events ix height r1.2 none with
          | .error e => .error e
          | .ok ix =>
              match deliverLoop sm r1.1 ix height cb.data 0 with
              | .error e => .error e
              | .ok (st, ix) =>
                  if height < 2 ^ 63 then
                    let r2 := sm.end_block st (height : Int)
                    match Indexer.events ix height r2.2 none with
                    | .error e => .error e
                    | .ok ix =>
                        let r3 := sm.commit r2.1
                        match r3.2 with
                        | .error e => .error e
                        | .ok hash =>
                            match ix.end_block hash with
                            | .error e => .error e
                            | .ok ix => .ok (r3.1, ix)
                  else .error "out of range integral type conversion attempted"

/-- The archive phase of `run_to_inner`: `for height in first_block..=end`,
fetch each block from the archive (failing when a height is missing) and
process it. -/
def runRange {σ : Type} (sm : PenumbraSM σ) (archive : ArchiveDb) :
    σ → Indexer → List Nat → Except String (σ × Indexer)
  | st, ix, [] => .ok (st, ix)
  | st, ix, h :: rest =>
      match Storage.get_block archive h with
      | .error e => .error e
      | .ok none => .error ("missing block at height " ++ toString h)
      | .ok (some b) =>
          match process_block sm st ix h b with
          | .error e => .error e
          | .ok (st, ix) => runRange sm archive st ix rest

/-- The consumer of the tail phase of `run_to_inner`: for each `(height,
block)` delivered by the producer stream, archive the block and process
it. Archive writes that committed before a failure remain, so the archive
state is returned alongside the outcome. -/
def tailLoop {σ : Type} (sm : PenumbraSM σ) :
    σ → Indexer → ArchiveDb → List (Nat × Block) →
      Except String (σ × Indexer) × ArchiveDb
  | st, ix, archive, [] => (.ok (st, ix), archive)
  | st, ix, archive, (h, b) :: rest =>
      match Storage.put_block archive b with
      | .error e => (.error e, archive)
      | .ok archive' =>
          match process_block sm st ix h b with
          | .error e => (.error e, archive')
          | .ok (st', ix') => tailLoop sm st' ix' archive' rest

/-- A configured block source for the regenerator (`Option<Arc<dyn
Store>>`): either a local store (using the trait's default
`stream_blocks`) or the remote store. -/
inductive StoreImpl where
  | localStore (m : StoreModel)
  | remote (m : RemoteModel)

/-- `Store::get_genesis` dispatched over the implementations. -/
def StoreImpl.get_genesis : StoreImpl → Except String Genesis
  | .localStore m => m.genesisDoc
  | .remote m => m.genesisDoc

/-- `Store::stream_blocks` dispatched over the implementations, observed up
to `fuel` remote polls. -/
def StoreImpl.stream_blocks (s : StoreImpl) (start endQ : Option Nat) (fuel : Nat) :
    List (Nat × Block) × StreamOutcome :=
  match s with
  | .localStore m =>
      let r := stream_blocks_default m start endQ
      (r.1, match r.2 with | none => .done | some msg => .failed msg)
  | .remote m => stream_blocks_remote m start endQ fuel

/-- `Regenerator::run_to_inner`: require the archive's last height to exist
(`"no blocks in archive"` otherwise), replay the archived blocks from
`first_block` to `min(last_block.unwrap_or(u64::MAX), archive.last)`, and
then, when a store is configured, tail the store's stream from
`archive.last + 1`, archiving and processing each delivered block and
propagating a producer error after the delivered prefix is consumed. The
archive state is returned alongside the outcome. -/
def run_to_inner {σ : Type} (sm : PenumbraSM σ) (st : σ) (ix : Indexer)
    (archive : ArchiveDb) (store : Option StoreImpl) (first_block : Nat)
    (last_block : Option Nat) (fuel : Nat) :
    Except String (σ × Indexer) × ArchiveDb :=
  match Storage.last_height archive with
  | .error e => (.error e, archive)
  | .ok none => (.error "no blocks in archive", archive)
  | .ok (some lastHeightInArchive) =>
      let endH := min (last_block.getD (2 ^ 64 - 1)) lastHeightInArchive
      match runRange sm archive st ix (List.range' first_block (endH + 1 - first_block)) with
      | .error e => (.error e, archive)
      | .ok (st, ix) =>
          let nextHeight := lastHeightInArchive + 1
          match store with
          | none => (.ok (st, ix), archive)
          | some s =>
              let r := s.stream_blocks (some nextHeight) last_block fuel
              match tailLoop sm st ix archive r.1 with
              | (.error e, archive') => (.error e, archive')
              | (.ok (st, ix), archive') =>
                  match r.2 with
                  | .failed msg => (.error msg, archive')
                  | .diverged => (.error "stream still producing at fuel exhaustion", archive')
                  | .done => (.ok (st, ix), archive')

/-- `Regenerator::run_to`: load the version's instance and run
`run_to_inner` (instance load/release is state-store resource management,
external to the replay semantics). -/
def run_to {σ : Type} (sm : PenumbraSM σ) (st : σ) (ix : Indexer)
    (archive : ArchiveDb) (store : Option StoreImpl) (first_block : Nat)
    (last_block : Option Nat) (fuel : Nat) :
    Except String (σ × Indexer) × ArchiveDb :=
  run_to_inner sm st ix archive store first_block last_block fuel

/-- `Regenerator::init_then_run_to`: fetch the genesis from the archive,
or, when absent, from the configured store (failing when there is none),
persisting it into the archive; initialize the application with it; then
`run_to_inner`. -/
def init_then_run_to {σ : Type} (sm : PenumbraSM σ) (st : σ) (ix : Indexer)
    (archive : ArchiveDb) (store : Option StoreImpl) (genesis_height : Nat)
    (first_block : Nat) (last_block : Option Nat) (fuel : Nat) :
    Except String (σ × Indexer) × ArchiveDb :=
  match Storage.get_genesis archive genesis_height with
  | .error e => (.error e, archive)
  | .ok (some g) =>
      match sm.genesisOp st g with
      | .error e => (.error e, archive)
      | .ok st => run_to_inner sm st ix archive store first_block last_block fuel
  | .ok none =>
      match store with
      | none => (.error ("expected genesis at height " ++ toString genesis_height), archive)
      | some s =>
          match s.get_genesis with
          | .error e => (.error e, archive)
          | .ok g =>
              match Storage.put_genesis archive g with
              | .error e => (.error e, archive)
              | .ok archive' =>
                  match sm.genesisOp st g with
                  | .error e => (.error e, archive')
                  | .ok st => run_to_inner sm st ix archive' store first_block last_block fuel

/-- A trivial application state machine over the unit state, for
witnesses. -/
def trivialSM : PenumbraSM Unit :=
  { genesisOp := fun _ _ => .ok (),
    begin_block := fun s _ => (s, []),
    deliver_tx := fun s _ => (s, .ok []),
    end_block := fun s _ => (s, []),
    commit := fun s => (s, .ok (List.replicate 32 0)) }

/-- A concrete genesis document, for witnesses. -/
def testGenesis : Genesis :=
  { initialHeight := 1, chainId := "penumbra-test", appState := "{}" }

/-- An archive holding one genesis and no blocks, for witnesses. -/
def genArchive : ArchiveDb :=
  { metadata := some (VERSION, "penumbra-test"),
    blobs := [.genesisBlob testGenesis],
    blocks := [],
    geneses := [(1, 1)] }

/-! ## Uniform renaming of auto-increment ids

Two runs of the regenerator over fresh index databases differ only in
where the databases' rowid sequences start. The following shift maps a
database (and an indexer) to the one produced when every `blocks` rowid is
larger by `δb`, every `tx_results` rowid by `δt`, and every `events` rowid
by `δe` (foreign keys shifted consistently); "equal up to auto-increment
ids" is equality after such a shift. -/

/-- Shift every auto-increment id of an index database uniformly. -/
def IndexerDb.shift (δb δt δe : Nat) (d : IndexerDb) : IndexerDb :=
  { blocks := d.blocks.map (fun r => { r with rowid := r.rowid + δb }),
    txResults := d.txResults.map (fun r =>
      { r with rowid := r.rowid + δt, blockId := r.blockId + δb }),
    events := d.events.map (fun r =>
      { rowid := r.rowid + δe, blockId := r.blockId + δb,
        txId := r.txId.map (fun t => t + δt), kind := r.kind }),
    attributes := d.attributes.map (fun r => { r with eventId := r.eventId + δe }),
    appHashes := d.appHashes.map (fun r => { r with blockId := r.blockId + δb }),
    nextBlockId := d.nextBlockId + δb,
    nextTxId := d.nextTxId + δt,
    nextEventId := d.nextEventId + δe }

/-- Shift a per-block context. -/
def IndexerCtx.shift (δb δt δe : Nat) (c : IndexerCtx) : IndexerCtx :=
  { blockId := c.blockId + δb, dbtx := c.dbtx.shift δb δt δe }

/-- Shift an indexer (ghost observation fields are id-free and unchanged). -/
def Indexer.shift (δb δt δe : Nat) (ix : Indexer) : Indexer :=
  { db := ix.db.shift δb δt δe,
    context := ix.context.map (IndexerCtx.shift δb δt δe),
    allow_existing_data := ix.allow_existing_data,
    emitted := ix.emitted,
    hashesPassed := ix.hashesPassed }

def freshIndexerWith (allow : Bool) (b t e : Nat) : Indexer :=
  { db := IndexerDb.emptyWith b t e, context := none,
    allow_existing_data := allow, emitted := [], hashesPassed := [] }

/-- A concrete well-formed block used to instantiate witnesses. -/
def testBlock : Block :=
  { inner := { header := some { height := 5, chainId := "penumbra-test" }, data := [[1, 2, 3]] },
    height := 5 }

def blockArchive : ArchiveDb :=
  { metadata := some (VERSION, "penumbra-test"),
    blobs := [.blockBlob testBlock.encode],
    blocks := [(5, 1)],
    geneses := [] }

/-- A concrete total store over bounds `(2, 5)`, for witnesses. -/
def testStore : StoreModel :=
  { heightBounds := some (2, 5),
    blockAt := fun h => some (mockBlock h),
    genesisDoc := .error "no genesis" }

/-! ## Helper lemmas about the storage model -/

/-- Decoding an encoded well-formed block gives the block back. -/
theorem Block.decode_encode (b : Block) (hb : b.WF) :
    Block.decode (Block.encode b) = .ok b := by
  unfold Block.WF at hb
  unfold Block.decode Block.encode
  cases hh : b.inner.header with
  | none => rw [hh] at hb; exact hb.elim
  | some h =>
      rw [hh] at hb
      dsimp only at hb ⊢
      rw [if_neg (by omega)]
      cases b
      simp only [Except.ok.injEq, Block.mk.injEq]
      exact ⟨trivial, hb.2.2.symm⟩

/-- A well-formed block's height fits in an `i64` (the header height is an
`i64` on the wire). -/
theorem Block.WF.height_lt (b : Block) (hb : b.WF) : b.height < 2 ^ 63 := by
  unfold Block.WF at hb
  cases hh : b.inner.header with
  | none => rw [hh] at hb; exact hb.elim
  | some h =>
      rw [hh] at hb
      dsimp only at hb
      omega

/-- A truncation with no bounds keeps every step unchanged. -/
theorem RegenerationPlan.truncate_none_none (plan : RegenerationPlan) :
    plan.truncate none none = plan := by
  unfold RegenerationPlan.truncate
  cases plan with
  | mk steps =>
      simp only [RegenerationPlan.mk.injEq]
      induction steps with
      | nil => rfl
      | cons p rest ih =>
          simp only [Option.getD, List.filterMap] at *
          rw [if_pos (Nat.zero_le _)]
          simp only [List.filterMap_cons, Option.getD_none] at *
          rw [ih]


namespace Storage

theorem foldrMax_le (l : List (Nat × Nat)) :
    ∀ r ∈ l, r.1 ≤ l.foldr (fun r acc => max r.1 acc) 0 := by
  induction l with
  | nil => intro r hr; cases hr
  | cons p t ih =>
      intro r hr
      rcases List.mem_cons.mp hr with hr | hr
      · subst hr
        simp only [List.foldr_cons]
        omega
      · have := ih r hr
        simp only [List.foldr_cons]
        omega

theorem foldrMax_mem (l : List (Nat × Nat)) (h : l ≠ []) :
    ∃ r ∈ l, r.1 = l.foldr (fun r acc => max r.1 acc) 0 := by
  induction l with
  | nil => exact absurd rfl h
  | cons p t ih =>
      cases t with
      | nil =>
          refine ⟨p, List.mem_cons_self _ _, ?_⟩
          simp [Nat.max_zero]
      | cons q u =>
          rcases ih (by simp) with ⟨r, hr, hfold⟩
          by_cases hc : (q :: u).foldr (fun r acc => max r.1 acc) 0 ≤ p.1
          · refine ⟨p, List.mem_cons_self _ _, ?_⟩
            simp only [List.foldr_cons] at *
            omega
          · refine ⟨r, List.mem_cons_of_mem _ hr, ?_⟩
            simp only [List.foldr_cons] at *
            omega

theorem find?_append_singleton (l : List (Nat × Nat)) (k : Nat) (x : Nat × Nat)
    (h : ∀ r ∈ l, r.1 ≠ k) :
    (l ++ [x]).find? (fun r => r.1 = k) = if x.1 = k then some x else none := by
  induction l with
  | nil =>
      by_cases hx : x.1 = k
      · simp [hx]
      · simp [hx]
  | cons a t ih =>
      have ha : a.1 ≠ k := h a (List.mem_cons_self _ _)
      rw [List.cons_append, List.find?_cons_of_neg _ (by simp [ha])]
      exact ih (fun r hr => h r (List.mem_cons_of_mem _ hr))

end Storage

/-! ## Helper lemmas about the block-stream models -/

theorem collectBlocks_total (blockAt : Nat → Option Block) (blk : Nat → Block) :
    ∀ (l : List Nat), (∀ h ∈ l, blockAt h = some (blk h)) →
      collectBlocks blockAt l = (l.map (fun h => (h, blk h)), none) := by
  intro l
  induction l with
  | nil => intro _; rfl
  | cons h t ih =>
      intro hall
      unfold collectBlocks
      rw [hall h (List.mem_cons_self _ _)]
      rw [ih (fun x hx => hall x (List.mem_cons_of_mem _ hx))]
      rfl

theorem processBatch_map_range' (blk : Nat → Block)
    (hblk : ∀ h, (blk h).height = h) :
    ∀ (n s : Nat), processBatch ((List.range' s n).map blk) s
      = ((List.range' s n).map (fun h => (h, blk h)), s + n, none) := by
  intro n
  induction n with
  | zero => intro s; rfl
  | succ n ih =>
      intro s
      rw [List.range'_succ, List.map_cons]
      unfold processBatch
      rw [if_pos (hblk s)]
      rw [ih (s + 1)]
      simp only [List.map_cons, Prod.mk.injEq, List.cons.injEq, true_and, and_true]
      omega

theorem filter_range'_window (first last : Nat) :
    ∀ (n lo : Nat), first ≤ lo →
      (List.range' lo n).filter (fun h => first ≤ h && h ≤ last)
        = List.range' lo (min (last + 1 - lo) n) := by
  intro n
  induction n with
  | zero => intro lo _; simp
  | succ n ih =>
      intro lo hlo
      rw [List.range'_succ, List.filter_cons]
      by_cases hle : lo ≤ last
      · rw [if_pos (by simp [hlo, hle])]
        rw [ih (lo + 1) (by omega)]
        have hmin : min (last + 1 - lo) (n + 1) = min (last + 1 - (lo + 1)) n + 1 := by
          omega
        rw [hmin, List.range'_succ]
      · rw [if_neg (by simp [hle])]
        rw [ih (lo + 1) (by omega)]
        have h1 : min (last + 1 - (lo + 1)) n = 0 := by omega
        have h2 : min (last + 1 - lo) (n + 1) = 0 := by omega
        rw [h1, h2]
        rfl

theorem getBlocks_canonical (first last : Nat) (blk : Nat → Block)
    (g : Except String Genesis) (lo n : Nat) (h1 : first ≤ lo) :
    (canonicalRemote first last blk g).getBlocks lo (lo + n)
      = (List.range' lo (min (last + 1 - lo) n)).map blk := by
  unfold canonicalRemote
  dsimp only
  rw [Nat.add_sub_cancel_left]
  rw [filter_range'_window first last n lo h1]

theorem streamInner_canonical (first last : Nat) (blk : Nat → Block)
    (hblk : ∀ h, (blk h).height = h) (g : Except String Genesis) (M : Nat)
    (hM : M ≤ last) :
    ∀ (fuel height : Nat), first ≤ height → height ≤ M → M + 1 - height ≤ fuel →
      ∃ H, M ≤ H ∧ H ≤ min last (M + 99) ∧
        streamInner (canonicalRemote first last blk g) M fuel height
          = ((List.range' height (H + 1 - height)).map (fun h => (h, blk h)), H + 1,
              .done) := by
  intro fuel
  induction fuel with
  | zero => intro height _ h2 h3; omega
  | succ fuel ih =>
      intro height h1 h2 h3
      have hbuf := getBlocks_canonical first last blk g height 100 h1
      set n := min (last + 1 - height) 100 with hn
      have hnpos : 1 ≤ n := by omega
      unfold streamInner
      rw [if_pos h2, hbuf]
      dsimp only
      rw [show (((List.range' height n).map blk).isEmpty) = false by
        rw [List.isEmpty_eq_false_iff_exists_mem]
        exact ⟨blk height, List.mem_map_of_mem blk (by
          rw [List.mem_range'_1]
          omega)⟩]
      rw [if_neg (by simp)]
      rw [processBatch_map_range' blk hblk n height]
      dsimp only
      by_cases hdone : M < height + n
      · -- the batch crossed `most_recent`: the loop exits on the next test
        refine ⟨height + n - 1, by omega, by omega, ?_⟩
        have hexit : streamInner (canonicalRemote first last blk g) M fuel (height + n)
            = ([], height + n, .done) := by
          cases fuel with
          | zero => unfold streamInner; rw [if_neg (by omega)]
          | succ fuel => unfold streamInner; rw [if_neg (by omega)]
        rw [hexit]
        simp only [List.append_nil, Prod.mk.injEq]
        refine ⟨by rw [show height + n - 1 + 1 - height = n by omega], by omega, trivial⟩
      · -- still below `most_recent`: recurse
        rcases ih (height + n) (by omega) (by omega) (by omega) with ⟨H, hH1, hH2, hrec⟩
        refine ⟨H, hH1, hH2, ?_⟩
        rw [hrec]
        simp only [Prod.mk.injEq]
        refine ⟨?_, trivial⟩
        rw [← List.map_append]
        congr 1
        have := List.range'_append height n (H + 1 - (height + n)) 1
        simp only [one_mul] at this
        rw [this]
        congr 1
        omega

end Reindexer

namespace Reindexer

/-! ## Helper lemmas about the indexer model -/

theorem Indexer.events_skip (ix : Indexer) (ctx : IndexerCtx) (h : Nat)
    (evs : List Event) (hctx : ix.context = some ctx)
    (hallow : ix.allow_existing_data = true)
    (hex : block_exists ctx.dbtx h = .ok true) :
    ix.events h evs none = .ok { ix with emitted := ix.emitted ++ evs } := by
  unfold Indexer.events
  rw [hctx]
  dsimp only
  rw [hallow, if_pos rfl, hex]

theorem Indexer.events_write_noTx (ix : Indexer) (ctx : IndexerCtx) (h : Nat)
    (evs : List Event) (hctx : ix.context = some ctx)
    (hallow : ix.allow_existing_data = false) :
    ix.events h evs none
      = .ok { ix with
              emitted := ix.emitted ++ evs,
              context := some { ctx with
                dbtx := insertEventRows ctx.blockId none ctx.dbtx evs } } := by
  unfold Indexer.events
  rw [hctx]
  dsimp only
  rw [hallow]
  rfl

theorem anyMapEq {α β : Type} (f : α → β) (p : β → Bool) (q : α → Bool)
    (hpq : ∀ x, p (f x) = q x) : ∀ (l : List α), (l.map f).any p = l.any q := by
  intro l
  induction l with
  | nil => rfl
  | cons a t ih => simp only [List.map_cons, List.any_cons, hpq, ih]

theorem fetch_block_id_shift (δb δt δe : Nat) (d : IndexerDb) (h : Nat) :
    fetch_block_id (d.shift δb δt δe) h
      = (fetch_block_id d h).map (Option.map (fun x => x + δb)) := by
  unfold fetch_block_id
  cases htoI64 : Storage.toI64 h with
  | error e => rfl
  | ok hh =>
      unfold IndexerDb.shift
      dsimp only
      rw [List.find?_map]
      rw [show ((fun r : BlockRow => decide (r.height = hh)) ∘ fun r : BlockRow =>
          ({ rowid := r.rowid + δb, height := r.height, chainId := r.chainId } : BlockRow))
          = (fun r : BlockRow => decide (r.height = hh)) from rfl]
      cases d.blocks.find? (fun r : BlockRow => decide (r.height = hh)) <;> rfl

theorem block_exists_shift (δb δt δe : Nat) (d : IndexerDb) (h : Nat) :
    block_exists (d.shift δb δt δe) h = block_exists d h := by
  unfold block_exists
  rw [fetch_block_id_shift]
  cases fetch_block_id d h with
  | error e => rfl
  | ok found => cases found <;> rfl

theorem tx_exists_shift (δb δt δe : Nat) (d : IndexerDb) (h i : Nat) :
    tx_exists (d.shift δb δt δe) h i = tx_exists d h i := by
  unfold tx_exists
  cases Storage.toI64 h with
  | error e => rfl
  | ok hh =>
      cases Storage.toI64 i with
      | error e => rfl
      | ok ii =>
          unfold IndexerDb.shift
          dsimp only
          apply congrArg
          refine anyMapEq _ _ _ (fun tr0 => ?_) d.txResults
          refine anyMapEq _ _ _ (fun br0 => ?_) d.blocks
          simp only
          simp [Nat.add_right_cancel_iff]

theorem insertEventRows_shift (δb δt δe B : Nat) (txId : Option Nat) :
    ∀ (evs : List Event) (d : IndexerDb),
      insertEventRows (B + δb) (txId.map (fun t => t + δt)) (d.shift δb δt δe) evs
        = (insertEventRows B txId d evs).shift δb δt δe := by
  intro evs
  induction evs with
  | nil => intro d; rfl
  | cons ev rest ih =>
      intro d
      unfold insertEventRows
      rw [← ih]
      unfold IndexerDb.shift
      simp [List.map_append, List.map_map, Function.comp_def, Nat.add_right_comm]

theorem insertEventRows_shift_none (δb δt δe B : Nat) (evs : List Event) (d : IndexerDb) :
    insertEventRows (B + δb) none (d.shift δb δt δe) evs
      = (insertEventRows B none d evs).shift δb δt δe :=
  insertEventRows_shift δb δt δe B none evs d

theorem insertEventRows_shift_some (δb δt δe B t : Nat) (evs : List Event) (d : IndexerDb) :
    insertEventRows (B + δb) (some (t + δt)) (d.shift δb δt δe) evs
      = (insertEventRows B (some t) d evs).shift δb δt δe :=
  insertEventRows_shift δb δt δe B (some t) evs d

theorem txInsert_shift (δb δt δe B i : Nat) (hash : String) (wire : TxResultWire) (d : IndexerDb) :
    ({ blocks := (d.shift δb δt δe).blocks,
       txResults := (d.shift δb δt δe).txResults
         ++ [{ rowid := d.nextTxId + δt, blockId := B + δb,
               txIndex := i, txHash := hash, txResult := wire }],
       events := (d.shift δb δt δe).events,
       attributes := (d.shift δb δt δe).attributes,
       appHashes := (d.shift δb δt δe).appHashes,
       nextBlockId := (d.shift δb δt δe).nextBlockId,
       nextTxId := d.nextTxId + δt + 1,
       nextEventId := (d.shift δb δt δe).nextEventId } : IndexerDb)
    = IndexerDb.shift δb δt δe
        { blocks := d.blocks,
          txResults := d.txResults
            ++ [{ rowid := d.nextTxId, blockId := B, txIndex := i,
                  txHash := hash, txResult := wire }],
          events := d.events, attributes := d.attributes, appHashes := d.appHashes,
          nextBlockId := d.nextBlockId, nextTxId := d.nextTxId + 1,
          nextEventId := d.nextEventId } := by
  unfold IndexerDb.shift
  simp [List.map_append, Nat.add_right_comm]

theorem Indexer.events_shift (δb δt δe : Nat) (ix : Indexer) (h : Nat)
    (evs : List Event) (tx : Option (Nat × Bytes × ResponseDeliverTx)) :
    (ix.shift δb δt δe).events h evs tx
      = (ix.events h evs tx).map (Indexer.shift δb δt δe) := by
  unfold Indexer.events
  cases hc : ix.context with
  | none =>
      rw [show (ix.shift δb δt δe).context = none from by
        unfold Indexer.shift
        rw [hc]
        rfl]
      rfl
  | some ctx =>
      rw [show (ix.shift δb δt δe).context = some (ctx.shift δb δt δe) from by
        unfold Indexer.shift
        rw [hc]
        rfl]
      dsimp only
      rw [show (IndexerCtx.shift δb δt δe ctx).dbtx = ctx.dbtx.shift δb δt δe from rfl,
          show (IndexerCtx.shift δb δt δe ctx).blockId = ctx.blockId + δb from rfl]
      cases ha : ix.allow_existing_data with
      | false =>
          rw [show (Indexer.shift δb δt δe ix).allow_existing_data = false from ha]
          rw [if_neg Bool.false_ne_true, if_neg Bool.false_ne_true]
          cases tx with
          | none =>
              dsimp only
              rw [insertEventRows_shift_none]
              rfl
          | some trip =>
              obtain ⟨i, raw, res⟩ := trip
              dsimp only
              by_cases hi : i < 2 ^ 31
              · rw [if_pos hi, if_pos hi]
                rw [show (IndexerDb.shift δb δt δe ctx.dbtx).nextTxId = ctx.dbtx.nextTxId + δt from rfl]
                rw [txInsert_shift, insertEventRows_shift_some]
                rfl
              · rw [if_neg hi, if_neg hi]
                rfl
      | true =>
          rw [show (Indexer.shift δb δt δe ix).allow_existing_data = true from ha]
          rw [if_pos rfl, if_pos rfl]
          cases tx with
          | none =>
              dsimp only
              rw [block_exists_shift]
              cases hbe : block_exists ctx.dbtx h with
              | error e => rfl
              | ok b =>
                  cases b with
                  | true => rfl
                  | false =>
                      dsimp only
                      rw [insertEventRows_shift_none]
                      rfl
          | some trip =>
              obtain ⟨i, raw, res⟩ := trip
              dsimp only
              rw [tx_exists_shift]
              cases hte : tx_exists ctx.dbtx h i with
              | error e => rfl
              | ok b =>
                  cases b with
                  | true => rfl
                  | false =>
                      dsimp only
                      by_cases hi : i < 2 ^ 31
                      · rw [if_pos hi, if_pos hi]
                        rw [show (IndexerDb.shift δb δt δe ctx.dbtx).nextTxId = ctx.dbtx.nextTxId + δt from rfl]
                        rw [txInsert_shift, insertEventRows_shift_some]
                        rfl
                      · rw [if_neg hi, if_neg hi]
                        rfl

theorem blockInsert_shift (δb δt δe h0 : Nat) (cid : String) (d : IndexerDb) :
    ({ blocks := (d.shift δb δt δe).blocks
         ++ [{ rowid := (d.shift δb δt δe).nextBlockId, height := h0, chainId := cid }],
       txResults := (d.shift δb δt δe).txResults,
       events := (d.shift δb δt δe).events,
       attributes := (d.shift δb δt δe).attributes,
       appHashes := (d.shift δb δt δe).appHashes,
       nextBlockId := (d.shift δb δt δe).nextBlockId + 1,
       nextTxId := (d.shift δb δt δe).nextTxId,
       nextEventId := (d.shift δb δt δe).nextEventId } : IndexerDb)
    = IndexerDb.shift δb δt δe
        { blocks := d.blocks ++ [{ rowid := d.nextBlockId, height := h0, chainId := cid }],
          txResults := d.txResults, events := d.events, attributes := d.attributes,
          appHashes := d.appHashes, nextBlockId := d.nextBlockId + 1,
          nextTxId := d.nextTxId, nextEventId := d.nextEventId } := by
  unfold IndexerDb.shift
  simp [List.map_append, Nat.add_right_comm]

theorem appHashInsert_shift (δb δt δe B : Nat) (hash : RootHash) (d : IndexerDb) :
    ({ blocks := (d.shift δb δt δe).blocks,
       txResults := (d.shift δb δt δe).txResults,
       events := (d.shift δb δt δe).events,
       attributes := (d.shift δb δt δe).attributes,
       appHashes := (d.shift δb δt δe).appHashes ++ [{ blockId := B + δb, appHash := hash }],
       nextBlockId := (d.shift δb δt δe).nextBlockId,
       nextTxId := (d.shift δb δt δe).nextTxId,
       nextEventId := (d.shift δb δt δe).nextEventId } : IndexerDb)
    = IndexerDb.shift δb δt δe
        { blocks := d.blocks, txResults := d.txResults, events := d.events,
          attributes := d.attributes,
          appHashes := d.appHashes ++ [{ blockId := B, appHash := hash }],
          nextBlockId := d.nextBlockId, nextTxId := d.nextTxId,
          nextEventId := d.nextEventId } := by
  unfold IndexerDb.shift
  simp [List.map_append]

theorem Indexer.enter_block_shift (δb δt δe : Nat) (ix : Indexer) (h : Nat) (cid : String) :
    (ix.shift δb δt δe).enter_block h cid
      = (ix.enter_block h cid).map (Indexer.shift δb δt δe) := by
  unfold Indexer.enter_block
  cases hc : ix.context with
  | some ctx =>
      rw [show (ix.shift δb δt δe).context = some (ctx.shift δb δt δe) from by
        unfold Indexer.shift
        rw [hc]
        rfl]
      rfl
  | none =>
      rw [show (ix.shift δb δt δe).context = none from by
        unfold Indexer.shift
        rw [hc]
        rfl]
      rw [show (Indexer.shift δb δt δe ix).db = ix.db.shift δb δt δe from rfl]
      rw [fetch_block_id_shift]
      cases hf : fetch_block_id ix.db h with
      | error e => rfl
      | ok found =>
          cases found with
          | none =>
              rw [show Except.map (Option.map fun x => x + δb)
                  (Except.ok (none : Option Nat)) = Except.ok (none : Option Nat) from rfl]
              dsimp only
              rw [blockInsert_shift]
              rw [← Indexer.events_shift]
              rfl
          | some id =>
              rw [show Except.map (Option.map fun x => x + δb) (Except.ok (some id))
                  = Except.ok (some (id + δb)) from rfl]
              dsimp only
              cases ha : ix.allow_existing_data with
              | true =>
                  rw [show (Indexer.shift δb δt δe ix).allow_existing_data = true from ha]
                  rw [if_pos rfl, if_pos rfl]
                  rw [← Indexer.events_shift]
                  rfl
              | false =>
                  rw [show (Indexer.shift δb δt δe ix).allow_existing_data = false from ha]
                  rw [if_neg Bool.false_ne_true, if_neg Bool.false_ne_true]
                  rfl

theorem Indexer.end_block_shift (δb δt δe : Nat) (ix : Indexer) (hash : RootHash) :
    (ix.shift δb δt δe).end_block hash
      = (ix.end_block hash).map (Indexer.shift δb δt δe) := by
  unfold Indexer.end_block
  cases hc : ix.context with
  | none =>
      rw [show (ix.shift δb δt δe).context = none from by
        unfold Indexer.shift
        rw [hc]
        rfl]
      rfl
  | some ctx =>
      rw [show (ix.shift δb δt δe).context = some (ctx.shift δb δt δe) from by
        unfold Indexer.shift
        rw [hc]
        rfl]
      dsimp only
      rw [show (IndexerCtx.shift δb δt δe ctx).dbtx = ctx.dbtx.shift δb δt δe from rfl,
          show (IndexerCtx.shift δb δt δe ctx).blockId = ctx.blockId + δb from rfl,
          show (Indexer.shift δb δt δe ix).allow_existing_data = ix.allow_existing_data from rfl]
      have hany : (IndexerDb.shift δb δt δe ctx.dbtx).appHashes.any
            (fun r => r.blockId = ctx.blockId + δb)
          = ctx.dbtx.appHashes.any (fun r => r.blockId = ctx.blockId) := by
        unfold IndexerDb.shift
        dsimp only
        exact anyMapEq _ _ _ (fun r => by simp [Nat.add_right_cancel_iff]) _
      rw [hany]
      cases hs : ix.allow_existing_data
          && ctx.dbtx.appHashes.any (fun r => r.blockId = ctx.blockId) with
      | true => rfl
      | false =>
          rw [if_neg Bool.false_ne_true, if_neg Bool.false_ne_true]
          rw [appHashInsert_shift]
          rfl

theorem deliverLoop_shift {σ : Type} (sm : PenumbraSM σ) (δb δt δe : Nat) :
    ∀ (txs : List Bytes) (st : σ) (ix : Indexer) (h i : Nat),
      deliverLoop sm st (ix.shift δb δt δe) h txs i
        = (deliverLoop sm st ix h txs i).map (fun p => (p.1, p.2.shift δb δt δe)) := by
  intro txs
  induction txs with
  | nil => intro st ix h i; rfl
  | cons tx rest ih =>
      intro st ix h i
      unfold deliverLoop
      dsimp only
      rw [Indexer.events_shift]
      cases hev : ix.events h
          (match (sm.deliver_tx st tx).2 with | .ok e => e | .error _ => [])
          (some (i, tx, ResponseDeliverTx.with_defaults (sm.deliver_tx st tx).2)) with
      | error e => rfl
      | ok ix1 =>
          rw [show Except.map (Indexer.shift δb δt δe) (Except.ok ix1)
              = Except.ok (ix1.shift δb δt δe) from rfl]
          dsimp only
          exact ih (sm.deliver_tx st tx).1 ix1 h (i + 1)

theorem process_block_shift {σ : Type} (sm : PenumbraSM σ) (st : σ)
    (δb δt δe : Nat) (ix : Indexer) (h : Nat) (b : Block) :
    process_block sm st (ix.shift δb δt δe) h b
      = (process_block sm st ix h b).map (fun p => (p.1, p.2.shift δb δt δe)) := by
  unfold process_block
  cases hcb : b.toCBlock with
  | error e => rfl
  | ok cb =>
      dsimp only
      rw [Indexer.enter_block_shift]
      cases he : ix.enter_block h cb.chainId with
      | error e => rfl
      | ok ix1 =>
          rw [show Except.map (Indexer.shift δb δt δe) (Except.ok ix1)
              = Except.ok (ix1.shift δb δt δe) from rfl]
          dsimp only
          rw [Indexer.events_shift]
          cases hev : ix1.events h (sm.begin_block st cb).2 none with
          | error e => rfl
          | ok ix2 =>
              rw [show Except.map (Indexer.shift δb δt δe) (Except.ok ix2)
                  = Except.ok (ix2.shift δb δt δe) from rfl]
              dsimp only
              rw [deliverLoop_shift]
              cases hdl : deliverLoop sm (sm.begin_block st cb).1 ix2 h cb.data 0 with
              | error e => rfl
              | ok p =>
                  obtain ⟨st1, ix3⟩ := p
                  rw [show Except.map (fun p => (p.1, Indexer.shift δb δt δe p.2))
                      (Except.ok (st1, ix3))
                      = Except.ok (st1, ix3.shift δb δt δe) from rfl]
                  dsimp only
                  by_cases hh : h < 2 ^ 63
                  · rw [if_pos hh, if_pos hh]
                    rw [Indexer.events_shift]
                    cases hev2 : ix3.events h (sm.end_block st1 (h : Int)).2 none with
                    | error e => rfl
                    | ok ix4 =>
                        rw [show Except.map (Indexer.shift δb δt δe) (Except.ok ix4)
                            = Except.ok (ix4.shift δb δt δe) from rfl]
                        dsimp only
                        cases hcm : (sm.commit (sm.end_block st1 (h : Int)).1).2 with
                        | error e => rfl
                        | ok hash =>
                            dsimp only
                            rw [Indexer.end_block_shift]
                            cases heb : ix4.end_block hash with
                            | error e => rfl
                            | ok ix5 => rfl
                  · rw [if_neg hh, if_neg hh]
                    rfl

theorem runRange_shift {σ : Type} (sm : PenumbraSM σ) (archive : ArchiveDb)
    (δb δt δe : Nat) :
    ∀ (heights : List Nat) (st : σ) (ix : Indexer),
      runRange sm archive st (ix.shift δb δt δe) heights
        = (runRange sm archive st ix heights).map (fun p => (p.1, p.2.shift δb δt δe)) := by
  intro heights
  induction heights with
  | nil => intro st ix; rfl
  | cons h rest ih =>
      intro st ix
      unfold runRange
      cases hg : Storage.get_block archive h with
      | error e => rfl
      | ok ob =>
          cases ob with
          | none => rfl
          | some b =>
              dsimp only
              rw [process_block_shift]
              cases hp : process_block sm st ix h b with
              | error e => rfl
              | ok p =>
                  obtain ⟨st1, ix1⟩ := p
                  rw [show Except.map (fun p => (p.1, Indexer.shift δb δt δe p.2))
                      (Except.ok (st1, ix1))
                      = Except.ok (st1, ix1.shift δb δt δe) from rfl]
                  dsimp only
                  exact ih st1 ix1

theorem tailLoop_shift {σ : Type} (sm : PenumbraSM σ) (δb δt δe : Nat) :
    ∀ (pairs : List (Nat × Block)) (st : σ) (ix : Indexer) (archive : ArchiveDb),
      tailLoop sm st (ix.shift δb δt δe) archive pairs
        = ((tailLoop sm st ix archive pairs).1.map (fun p => (p.1, p.2.shift δb δt δe)),
           (tailLoop sm st ix archive pairs).2) := by
  intro pairs
  induction pairs with
  | nil => intro st ix archive; rfl
  | cons pr rest ih =>
      obtain ⟨h, b⟩ := pr
      intro st ix archive
      unfold tailLoop
      cases hp : Storage.put_block archive b with
      | error e => rfl
      | ok archive' =>
          dsimp only
          rw [process_block_shift]
          cases hpb : process_block sm st ix h b with
          | error e => rfl
          | ok p =>
              obtain ⟨st1, ix1⟩ := p
              rw [show Except.map (fun p => (p.1, Indexer.shift δb δt δe p.2))
                  (Except.ok (st1, ix1))
                  = Except.ok (st1, ix1.shift δb δt δe) from rfl]
              dsimp only
              exact ih st1 ix1 archive'

theorem run_to_inner_shift {σ : Type} (sm : PenumbraSM σ) (st : σ)
    (δb δt δe : Nat) (ix : Indexer) (archive : ArchiveDb)
    (store : Option StoreImpl) (first_block : Nat) (last_block : Option Nat)
    (fuel : Nat) :
    run_to_inner sm st (ix.shift δb δt δe) archive store first_block last_block fuel
      = ((run_to_inner sm st ix archive store first_block last_block fuel).1.map
          (fun p => (p.1, p.2.shift δb δt δe)),
         (run_to_inner sm st ix archive store first_block last_block fuel).2) := by
  unfold run_to_inner
  cases hlh : Storage.last_height archive with
  | error e => rfl
  | ok olh =>
      cases olh with
      | none => rfl
      | some lastH =>
          dsimp only
          rw [runRange_shift]
          cases hr : runRange sm archive st ix
              (List.range' first_block
                (min (last_block.getD (2 ^ 64 - 1)) lastH + 1 - first_block)) with
          | error e => rfl
          | ok p =>
              obtain ⟨st1, ix1⟩ := p
              rw [show Except.map (fun p => (p.1, Indexer.shift δb δt δe p.2))
                  (Except.ok (st1, ix1))
                  = Except.ok (st1, ix1.shift δb δt δe) from rfl]
              dsimp only
              cases store with
              | none => rfl
              | some s =>
                  dsimp only
                  rw [tailLoop_shift]
                  cases ht : tailLoop sm st1 ix1 archive
                      (s.stream_blocks (some (lastH + 1)) last_block fuel).1 with
                  | mk res arch' =>
                      cases res with
                      | error e => rfl
                      | ok q =>
                          obtain ⟨st2, ix2⟩ := q
                          dsimp only
                          cases (s.stream_blocks (some (lastH + 1)) last_block fuel).2 with
                          | done => rfl
                          | failed msg => rfl
                          | diverged => rfl

theorem Storage.put_genesis_blocks (db : ArchiveDb) (g : Genesis) (db' : ArchiveDb)
    (h : Storage.put_genesis db g = .ok db') : db'.blocks = db.blocks := by
  unfold Storage.put_genesis at h
  split at h
  · cases h
  · split at h
    · cases h
      rfl
    · cases h
      rfl

/-! ## Theorems settling the claims -/

/-- C4: for every block `b` and every archive containing no block at height
`b.height()`: `put_block(b)` succeeds, and afterwards `get_block(b.height())
== Some(b)` and `last_height()` is `≥ b.height()`; a second `put_block(b)`
on the resulting archive returns an error. -/
theorem putBlockRoundTrip (db : ArchiveDb) (b : Block) (hwf : b.WF)
    (hnew : ∀ r ∈ db.blocks, r.1 ≠ b.height) :
    ∃ db', Storage.put_block db b = .ok db' ∧
      Storage.get_block db' b.height = .ok (some b) ∧
      (∃ m, Storage.last_height db' = .ok (some m) ∧ b.height ≤ m) ∧
      ∃ msg, Storage.put_block db' b = .error msg := by
  have hlt : b.height < 2 ^ 63 := Block.WF.height_lt b hwf
  have htoI64 : Storage.toI64 b.height = .ok b.height := by
    unfold Storage.toI64
    rw [if_pos hlt]
  have hany : db.blocks.any (fun r => r.1 = b.height) = false := by
    rw [List.any_eq_false]
    intro r hr
    simp [hnew r hr]
  refine ⟨{ db with
            blobs := db.blobs ++ [.blockBlob b.encode],
            blocks := db.blocks ++ [(b.height, db.blobs.length + 1)] }, ?_, ?_, ?_, ?_⟩
  · unfold Storage.put_block
    rw [htoI64]
    dsimp only
    rw [hany]
    simp
  · unfold Storage.get_block
    rw [htoI64]
    dsimp only
    unfold Storage.lookupJoin
    rw [Storage.find?_append_singleton _ _ _ hnew, if_pos rfl]
    dsimp only
    rw [Nat.add_sub_cancel, List.getElem?_concat_length]
    dsimp only [decodeBlockBlob]
    rw [Block.decode_encode b hwf]
    rfl
  · unfold Storage.last_height
    refine ⟨_, rfl, ?_⟩
    exact Storage.foldrMax_le _ (b.height, db.blobs.length + 1) (by simp)
  · unfold Storage.put_block
    rw [htoI64]
    dsimp only
    rw [if_pos]
    · exact ⟨_, rfl⟩
    · rw [List.any_eq_true]
      exact ⟨(b.height, db.blobs.length + 1), by simp⟩

/-- Witness for C4 at a concrete block and the empty archive. -/
theorem putBlockRoundTrip_witness :
    ∃ db', Storage.put_block ArchiveDb.empty testBlock = .ok db' ∧
      Storage.get_block db' testBlock.height = .ok (some testBlock) ∧
      (∃ m, Storage.last_height db' = .ok (some m) ∧ testBlock.height ≤ m) ∧
      ∃ msg, Storage.put_block db' testBlock = .error msg :=
  putBlockRoundTrip ArchiveDb.empty testBlock (by decide) (by decide)

/-- C7: archive chain binding. Once the metadata row has been written with a
chain id, every subsequent open that supplies a chain id either matches the
stored chain id and the fixed version tag or fails, and the stored metadata
is unchanged by the open (in particular by a failed one); a fresh open
writes `(VERSION, chain_id)`. -/
theorem archiveChainBinding :
    (∀ (db : ArchiveDb) (c : String), db.metadata = none →
        (Storage.init db (some c)).1 = .ok () ∧
        (Storage.init db (some c)).2.metadata = some (VERSION, c)) ∧
    (∀ (db : ArchiveDb) (v c c' : String), db.metadata = some (v, c) →
        ((Storage.init db (some c')).1 = .ok () ↔ v = VERSION ∧ c' = c) ∧
        (Storage.init db (some c')).2 = db) := by
  constructor
  · intro db c hmeta
    unfold Storage.init
    rw [hmeta]
    exact ⟨rfl, rfl⟩
  · intro db v c c' hmeta
    unfold Storage.init
    rw [hmeta]
    dsimp only
    by_cases hv : v = VERSION
    · subst hv
      rw [if_neg (by simp)]
      by_cases hc : c = c'
      · subst hc
        rw [if_neg (by simp)]
        exact ⟨by simp, rfl⟩
      · rw [if_pos (by simp [hc])]
        exact ⟨by simp [Ne.symm hc], rfl⟩
    · rw [if_pos (by simp [hv])]
      exact ⟨by simp [hv], rfl⟩

/-- Witness for C7: initializing an empty archive with chain id `"a"` binds
it; reopening with `"b"` fails and leaves the metadata row intact. -/
theorem archiveChainBinding_witness :
    ((Storage.init ArchiveDb.empty (some "a")).1 = .ok () ∧
      (Storage.init ArchiveDb.empty (some "a")).2.metadata = some (VERSION, "a")) ∧
    (((Storage.init (Storage.init ArchiveDb.empty (some "a")).2 (some "b")).1 = .ok () ↔
        VERSION = VERSION ∧ "b" = "a") ∧
      (Storage.init (Storage.init ArchiveDb.empty (some "a")).2 (some "b")).2 =
        (Storage.init ArchiveDb.empty (some "a")).2) :=
  ⟨archiveChainBinding.1 ArchiveDb.empty "a" rfl,
    archiveChainBinding.2 (Storage.init ArchiveDb.empty (some "a")).2 VERSION "a" "b" rfl⟩

/-- C8 counterexample: the empty archive contains no blocks, yet
`last_height()` returns `Some 0` — `SELECT MAX(height)` produces one row
whose `NULL` aggregate the driver decodes as `0` — and in particular does
not return `None` as claimed. -/
theorem lastHeight_cex :
    ArchiveDb.empty.blocks = [] ∧
    Storage.last_height ArchiveDb.empty = .ok (some 0) ∧
    Storage.last_height ArchiveDb.empty ≠ .ok none :=
  ⟨rfl, rfl, fun h => Option.noConfusion (Except.ok.inj h)⟩

/-- C8 (amended): `last_height()` never fails and never returns `None`: on
an archive with no blocks it returns `Some 0` (the `NULL` aggregate of
`SELECT MAX(height)` decoded as `0`), and on an archive with at least one
block it returns `Some m` where `m` is the maximum stored block height. -/
theorem lastHeightActual (db : ArchiveDb) :
    Storage.last_height db ≠ .ok none ∧
    (db.blocks = [] → Storage.last_height db = .ok (some 0)) ∧
    (db.blocks ≠ [] →
      ∃ m, Storage.last_height db = .ok (some m) ∧
        (∀ r ∈ db.blocks, r.1 ≤ m) ∧ ∃ r ∈ db.blocks, r.1 = m) := by
  refine ⟨?_, ?_, ?_⟩
  · intro h
    exact Option.noConfusion (Except.ok.inj h)
  · intro hempty
    unfold Storage.last_height
    rw [hempty]
    rfl
  · intro hne
    unfold Storage.last_height
    refine ⟨_, rfl, Storage.foldrMax_le db.blocks, ?_⟩
    rcases Storage.foldrMax_mem db.blocks hne with ⟨r, hr, hfold⟩
    exact ⟨r, hr, hfold⟩

/-- Witness for C8 (amended) on the empty archive and a two-block
archive. -/
theorem lastHeightActual_witness :
    Storage.last_height ArchiveDb.empty = .ok (some 0) ∧
    ∃ m, Storage.last_height { ArchiveDb.empty with blocks := [(3, 1), (7, 2)] }
        = .ok (some m) ∧
      (∀ r ∈ [(3, 1), (7, 2)], Prod.fst r ≤ m) ∧
      ∃ r ∈ [(3, 1), (7, 2)], Prod.fst r = m :=
  ⟨(lastHeightActual ArchiveDb.empty).2.1 rfl,
    (lastHeightActual { ArchiveDb.empty with blocks := [(3, 1), (7, 2)] }).2.2 (by decide)⟩

/-- C6: the remote source's `stream_blocks` validates each batch element: a
source returning blocks with self-reported heights `[1, 2, 4]` for the
requested range `[1..4)` yields blocks 1 and 2 and then an
"unexpected block height" error as the third element, closing the
stream. -/
theorem remoteHeightValidation :
    stream_blocks_remote mockRemote124 (some 1) (some 3) 1
      = ([(1, mockBlock 1), (2, mockBlock 2)],
          .failed "unexpected block height: 4") := by
  rfl

/-- C3 counterexample: the claim fails for the remote implementation. For a
remote source with height bounds `(2, 3)` holding blocks 2 and 3,
`stream_blocks(None, Some(3))` should (per the claim) yield pairs starting
at `max(start, first) = 2`; instead the stream yields no pair at all and
errors, because the remote implementation starts the expected height at
`start.unwrap_or(1) = 1` without clamping it to the source's first
height, and the first returned block (height 2) fails the height check. -/
theorem streamBlocksContract_cex :
    (stream_blocks_remote (canonicalRemote 2 3 mockBlock (.error "no genesis"))
        none (some 3) 2).1 = [] ∧
    (stream_blocks_remote (canonicalRemote 2 3 mockBlock (.error "no genesis"))
        none (some 3) 2).2 = .failed "unexpected block height: 2" ∧
    ((stream_blocks_remote (canonicalRemote 2 3 mockBlock (.error "no genesis"))
        none (some 3) 2).1.map Prod.fst).head? ≠ some 2 := by
  refine ⟨rfl, rfl, ?_⟩
  rw [show (stream_blocks_remote (canonicalRemote 2 3 mockBlock (.error "no genesis"))
      none (some 3) 2).1 = [] from rfl]
  simp

/-- C3 (amended): the default (local-backed) implementation satisfies the
stated contract: when the bounds are `Some((first, last))` and the source
holds every block of the clamped range, `stream_blocks(start, end)` yields
exactly the blocks of the contiguous ascending range from
`max(start, first)` to `min(end, last)` (each bound defaulting to the
source's own bound when absent). The remote implementation yields the
contiguous ascending range only when the requested start
(`start.unwrap_or(1)`) is at least the source's first height; it begins at
that requested start rather than at `max(start, first)`, and because it
yields whole 100-block batches it ends at some height `H` with
`min(end, last) ≤ H ≤ min(last, min(end, last) + 99)` rather than exactly
at `min(end, last)` (stated here for `start ≤ end ≤ last`, where the
stream then completes). -/
theorem streamBlocksContract :
    (∀ (s : StoreModel) (first last : Nat) (start endQ : Option Nat)
        (blk : Nat → Block),
      s.heightBounds = some (first, last) →
      (∀ h, first ≤ h → h ≤ last → s.blockAt h = some (blk h)) →
      stream_blocks_default s start endQ
        = ((List.range' (max first (start.getD first))
              (min last (endQ.getD last) + 1 - max first (start.getD first))).map
            (fun h => (h, blk h)), none)) ∧
    (∀ (first last e : Nat) (blk : Nat → Block) (g : Except String Genesis)
        (start : Option Nat),
      (∀ h, (blk h).height = h) →
      first ≤ start.getD 1 → start.getD 1 ≤ e → e ≤ last →
      ∃ H, e ≤ H ∧ H ≤ min last (e + 99) ∧
        stream_blocks_remote (canonicalRemote first last blk g) start (some e) 2
          = ((List.range' (start.getD 1) (H + 1 - start.getD 1)).map
              (fun h => (h, blk h)), .done)) := by
  constructor
  · intro s first last start endQ blk hb hall
    unfold stream_blocks_default
    rw [hb]
    dsimp only
    have hlo : (match start with | some x => max first x | none => first)
        = max first (start.getD first) := by
      cases start <;> simp
    have hhi : (match endQ with | some x => min last x | none => last)
        = min last (endQ.getD last) := by
      cases endQ <;> simp
    rw [hlo, hhi]
    refine collectBlocks_total s.blockAt blk _ ?_
    intro h hmem
    rw [List.mem_range'_1] at hmem
    refine hall h (by omega) (by omega)
  · intro first last e blk g start hblk h1 h2 h3
    have hM : min last e = e := Nat.min_eq_right h3
    rcases streamInner_canonical first last blk hblk g e h3 (e + 1 - start.getD 1)
        (start.getD 1) h1 h2 (Nat.le_refl _) with ⟨H, hH1, hH2, hinner⟩
    refine ⟨H, hH1, hH2, ?_⟩
    unfold stream_blocks_remote
    rw [show (2 : Nat) = 1 + 1 from rfl]
    unfold streamOuter
    rw [if_pos (by simp [h2])]
    rw [show (canonicalRemote first last blk g).bounds = some (first, last) from rfl]
    dsimp only
    rw [hM, hinner]
    dsimp only
    have houter1 : streamOuter (canonicalRemote first last blk g) (some e) 1 (H + 1)
        = ([], .done) := by
      unfold streamOuter
      rw [if_neg (by intro hcon; simp at hcon; omega)]
    rw [houter1]
    simp

/-- Witness for the amended C3, at a concrete total store with bounds
`(2, 5)` and a concrete canonical remote source. -/
theorem streamBlocksContract_witness :
    stream_blocks_default testStore (some 3) (some 4)
      = ((List.range' (max 2 ((some 3 : Option Nat).getD 2))
            (min 5 ((some 4 : Option Nat).getD 5) + 1
              - max 2 ((some 3 : Option Nat).getD 2))).map
          (fun h => (h, mockBlock h)), none) ∧
    ∃ H, 4 ≤ H ∧ H ≤ min 5 (4 + 99) ∧
      stream_blocks_remote (canonicalRemote 2 5 mockBlock (.error "no genesis"))
          (some 2) (some 4) 2
        = ((List.range' ((some 2 : Option Nat).getD 1)
              (H + 1 - (some 2 : Option Nat).getD 1)).map
            (fun h => (h, mockBlock h)), .done) :=
  ⟨streamBlocksContract.1 testStore 2 5 (some 3) (some 4) mockBlock rfl
      (fun _ _ _ => rfl),
    streamBlocksContract.2 2 5 4 mockBlock (.error "no genesis") (some 2)
      (fun _ => rfl) (by decide) (by decide) (by decide)⟩

/-- C5: `Indexer::enter_block(height, chain_id)` fails if and only if a
block row at that height already exists and `allow_existing_data` is
false; otherwise it establishes a per-block context whose block id is the
existing row's id (when the row pre-exists under `allow_existing_data`) or
the newly inserted row's id, and emits one synthetic event of kind
`"block"` with the single attribute `("height", height, indexed=true)`
(the event passed to `events` is exactly `blockPseudoEvent height`; its
row and attribute row are written for a fresh block under the default
options, while the `allow_existing_data` skip logic suppresses the row
writes). -/
theorem enterBlockContract (ix : Indexer) (height : Nat) (chainId : String)
    (hctx : ix.context = none) (hheight : height < 2 ^ 63) :
    ((∃ r, ix.db.blocks.find? (fun b => b.height = height) = some r) ∧
        ix.allow_existing_data = false →
      ∃ msg, ix.enter_block height chainId = .error msg) ∧
    (ix.db.blocks.find? (fun b => b.height = height) = none →
      ∃ ix', ix.enter_block height chainId = .ok ix' ∧
        (∃ ctx, ix'.context = some ctx ∧ ctx.blockId = ix.db.nextBlockId) ∧
        ix'.emitted = ix.emitted ++ [blockPseudoEvent height] ∧
        (ix.allow_existing_data = false →
          ∀ ctx, ix'.context = some ctx →
            ctx.dbtx.events = ix.db.events
              ++ [{ rowid := ix.db.nextEventId, blockId := ix.db.nextBlockId,
                    txId := none, kind := "block" }] ∧
            ctx.dbtx.attributes = ix.db.attributes
              ++ [{ eventId := ix.db.nextEventId, key := "height",
                    compositeKey := "block.height", value := toString height }])) ∧
    (∀ r, ix.db.blocks.find? (fun b => b.height = height) = some r →
        ix.allow_existing_data = true →
      ∃ ix', ix.enter_block height chainId = .ok ix' ∧
        ix'.context = some { blockId := r.rowid, dbtx := ix.db } ∧
        ix'.emitted = ix.emitted ++ [blockPseudoEvent height]) := by
  have htoI64 : Storage.toI64 height = .ok height := by
    unfold Storage.toI64
    rw [if_pos hheight]
  have hfetch : fetch_block_id ix.db height
      = .ok ((ix.db.blocks.find? (fun r => r.height = height)).map (fun r => r.rowid)) := by
    unfold fetch_block_id
    rw [htoI64]
  refine ⟨?_, ?_, ?_⟩
  · rintro ⟨⟨r, hr⟩, hallow⟩
    unfold Indexer.enter_block
    rw [hctx, hfetch, hr]
    simp only [Option.map_some']
    rw [hallow]
    exact ⟨_, rfl⟩
  · intro hnone
    unfold Indexer.enter_block
    rw [hctx, hfetch, hnone]
    simp only [Option.map_none']
    have hex1 : block_exists
        { ix.db with
          blocks := ix.db.blocks ++ [{ rowid := ix.db.nextBlockId, height := height,
                                       chainId := chainId }],
          nextBlockId := ix.db.nextBlockId + 1 } height
        = .ok true := by
      unfold block_exists fetch_block_id
      rw [htoI64]
      dsimp only
      rw [List.find?_append, hnone]
      simp
    cases hallow : ix.allow_existing_data with
    | true =>
        rw [Indexer.events_skip _ _ _ _ rfl rfl hex1]
        refine ⟨_, rfl, ⟨_, rfl, rfl⟩, rfl, ?_⟩
        intro hcon
        exact Bool.noConfusion hcon
    | false =>
        rw [Indexer.events_write_noTx _ _ _ _ rfl rfl]
        refine ⟨_, rfl, ⟨_, rfl, rfl⟩, rfl, ?_⟩
        intro _ ctx hcx
        rw [Option.some.injEq] at hcx
        rw [← hcx]
        exact ⟨rfl, rfl⟩
  · intro r hr htrue
    unfold Indexer.enter_block
    rw [hctx, hfetch, hr]
    simp only [Option.map_some']
    have hex : block_exists ix.db height = .ok true := by
      unfold block_exists
      rw [hfetch, hr]
      rfl
    rw [htrue, if_pos rfl]
    rw [Indexer.events_skip _ _ _ _ rfl rfl hex]
    exact ⟨_, rfl, rfl, rfl⟩

/-- Witness for C5: entering block 7 on a fresh default-options indexer. -/
theorem enterBlockContract_witness :
    ∃ ix', (Indexer.fresh false).enter_block 7 "penumbra-test" = .ok ix' ∧
      (∃ ctx, ix'.context = some ctx ∧ ctx.blockId = (Indexer.fresh false).db.nextBlockId) ∧
      ix'.emitted = (Indexer.fresh false).emitted ++ [blockPseudoEvent 7] ∧
      ((Indexer.fresh false).allow_existing_data = false →
        ∀ ctx, ix'.context = some ctx →
          ctx.dbtx.events = (Indexer.fresh false).db.events
            ++ [{ rowid := (Indexer.fresh false).db.nextEventId,
                  blockId := (Indexer.fresh false).db.nextBlockId,
                  txId := none, kind := "block" }] ∧
          ctx.dbtx.attributes = (Indexer.fresh false).db.attributes
            ++ [{ eventId := (Indexer.fresh false).db.nextEventId, key := "height",
                  compositeKey := "block.height", value := toString 7 }]) :=
  (enterBlockContract (Indexer.fresh false) 7 "penumbra-test" rfl (by decide)).2.1 rfl

/-- C10 counterexample: on an archive holding a genesis but zero blocks,
with a remote source configured, `run_to_inner` does not fail with the
`"no blocks in archive"` error: `last_height` comes back `Some 0`, the
archive replay loop is empty, and the remote-tail phase runs from height
`1` — the run succeeds and the blocks streamed from the remote source
(heights `[1, 2]`) are archived. -/
theorem emptyArchiveNoBlocks_cex :
    genArchive.blocks = [] ∧
    (∃ p, (run_to_inner trivialSM () (Indexer.fresh false) genArchive
        (some (.remote (canonicalRemote 1 2 mockBlock (.error "no genesis"))))
        1 (some 2) 3).1 = .ok p) ∧
    ((run_to_inner trivialSM () (Indexer.fresh false) genArchive
        (some (.remote (canonicalRemote 1 2 mockBlock (.error "no genesis"))))
        1 (some 2) 3).2).blocks.map Prod.fst = [1, 2] :=
  ⟨rfl, ⟨_, rfl⟩, rfl⟩

/-- C10 (amended): on an archive containing zero blocks, `last_height()`
returns `Some 0` (the `NULL` aggregate of `SELECT MAX(height)` decoded as
`0`), so an `InitThenRunTo` or `RunTo` step does not fail with
`"no blocks in archive"`: for any `first_block ≥ 1` the archive replay
loop processes nothing, and `run_to_inner` returns success unchanged when
no store is configured, while with a configured store it proceeds directly
to the remote-tail phase, streaming from height `1` (`last_height + 1`) up
to `last_block`, archiving and processing each delivered block and
propagating the stream's outcome — the remote-bootstrap path. -/
theorem emptyArchiveBootstrap {σ : Type} (sm : PenumbraSM σ) (st : σ)
    (ix : Indexer) (archive : ArchiveDb) (first_block : Nat)
    (last_block : Option Nat) (fuel : Nat)
    (hempty : archive.blocks = []) (hfb : 1 ≤ first_block) :
    run_to_inner sm st ix archive none first_block last_block fuel
      = (.ok (st, ix), archive) ∧
    ∀ s : StoreImpl,
      run_to_inner sm st ix archive (some s) first_block last_block fuel
        = (match tailLoop sm st ix archive
              (s.stream_blocks (some 1) last_block fuel).1 with
           | (.error e, archive') => (.error e, archive')
           | (.ok (st', ix'), archive') =>
               match (s.stream_blocks (some 1) last_block fuel).2 with
               | .failed msg => (.error msg, archive')
               | .diverged =>
                   (.error "stream still producing at fuel exhaustion", archive')
               | .done => (.ok (st', ix'), archive')) := by
  have hlast : Storage.last_height archive = .ok (some 0) := by
    unfold Storage.last_height
    rw [hempty]
    rfl
  have hcount : min (last_block.getD (2 ^ 64 - 1)) 0 + 1 - first_block = 0 := by
    rw [Nat.min_zero]
    omega
  constructor
  · unfold run_to_inner
    rw [hlast]
    dsimp only
    rw [hcount]
    rw [show runRange sm archive st ix (List.range' first_block 0)
        = Except.ok (st, ix) from rfl]
  · intro s
    unfold run_to_inner
    rw [hlast]
    dsimp only
    rw [hcount, Nat.zero_add]
    rw [show runRange sm archive st ix (List.range' first_block 0)
        = Except.ok (st, ix) from rfl]

/-- Witness for C10 (amended): a run over an archive holding a genesis and
zero blocks, with no store configured, returns success with nothing
processed. -/
theorem emptyArchiveBootstrap_witness :
    run_to_inner trivialSM () (Indexer.fresh false) genArchive none 1 none 5
      = (.ok ((), Indexer.fresh false), genArchive) :=
  (emptyArchiveBootstrap trivialSM () (Indexer.fresh false) genArchive 1 none 5
    rfl (by decide)).1

/-- C1: replay determinism. For a fixed regeneration plan step range, a
fixed archive, a fixed (deterministic) app-version state machine, and a
fixed optional store, two runs of `run_to_inner` over the same height
range starting from fresh index databases (whose rowid sequences may
stand at different values) produce identical outcomes up to a uniform
shift of the auto-increment ids: the same error (if any), the same final
archive, the same sequence of `app_hash` values passed to
`Indexer::end_block`, the same events passed to `Indexer::events`, and
the same rows in every index table once the auto-increment id columns are
erased. -/
theorem replayDeterminism {σ : Type} (sm : PenumbraSM σ) (st : σ)
    (archive : ArchiveDb) (store : Option StoreImpl) (first_block : Nat)
    (last_block : Option Nat) (fuel : Nat) (allow : Bool)
    (b t e δb δt δe : Nat) (s1 s2 : σ) (i1 i2 : Indexer)
    (h1 : (run_to_inner sm st (freshIndexerWith allow b t e) archive store
            first_block last_block fuel).1 = .ok (s1, i1))
    (h2 : (run_to_inner sm st (freshIndexerWith allow (b + δb) (t + δt) (e + δe))
            archive store first_block last_block fuel).1 = .ok (s2, i2)) :
    (run_to_inner sm st (freshIndexerWith allow (b + δb) (t + δt) (e + δe))
        archive store first_block last_block fuel).1
      = (run_to_inner sm st (freshIndexerWith allow b t e) archive store
          first_block last_block fuel).1.map (fun p => (p.1, p.2.shift δb δt δe)) ∧
    (run_to_inner sm st (freshIndexerWith allow (b + δb) (t + δt) (e + δe))
        archive store first_block last_block fuel).2
      = (run_to_inner sm st (freshIndexerWith allow b t e) archive store
          first_block last_block fuel).2 ∧
    s2 = s1 ∧
    i2.hashesPassed = i1.hashesPassed ∧
    i2.emitted = i1.emitted ∧
    i2.db.events.map (fun r => r.kind) = i1.db.events.map (fun r => r.kind) ∧
    i2.db.attributes.map (fun a => (a.key, a.compositeKey, a.value))
      = i1.db.attributes.map (fun a => (a.key, a.compositeKey, a.value)) ∧
    i2.db.blocks.map (fun r => (r.height, r.chainId))
      = i1.db.blocks.map (fun r => (r.height, r.chainId)) ∧
    i2.db.txResults.map (fun r => (r.txIndex, r.txHash, r.txResult))
      = i1.db.txResults.map (fun r => (r.txIndex, r.txHash, r.txResult)) ∧
    i2.db.appHashes.map (fun r => r.appHash) = i1.db.appHashes.map (fun r => r.appHash) := by
  have hx : freshIndexerWith allow (b + δb) (t + δt) (e + δe)
      = (freshIndexerWith allow b t e).shift δb δt δe := rfl
  have hmap := run_to_inner_shift sm st δb δt δe (freshIndexerWith allow b t e)
    archive store first_block last_block fuel
  have hfst : (run_to_inner sm st (freshIndexerWith allow (b + δb) (t + δt) (e + δe))
      archive store first_block last_block fuel).1
      = (run_to_inner sm st (freshIndexerWith allow b t e) archive store
          first_block last_block fuel).1.map (fun p => (p.1, p.2.shift δb δt δe)) := by
    rw [hx, hmap]
  have hsnd : (run_to_inner sm st (freshIndexerWith allow (b + δb) (t + δt) (e + δe))
      archive store first_block last_block fuel).2
      = (run_to_inner sm st (freshIndexerWith allow b t e) archive store
          first_block last_block fuel).2 := by
    rw [hx, hmap]
  refine ⟨hfst, hsnd, ?_⟩
  have h2' : (run_to_inner sm st (freshIndexerWith allow (b + δb) (t + δt) (e + δe))
      archive store first_block last_block fuel).1
      = .ok (s1, i1.shift δb δt δe) := by
    rw [hfst, h1]
    rfl
  rw [h2'] at h2
  have hpair : (s1, i1.shift δb δt δe) = (s2, i2) := by
    have := h2
    exact Except.ok.inj this
  have hs : s2 = s1 := (congrArg Prod.fst hpair).symm
  have hi : i2 = i1.shift δb δt δe := (congrArg Prod.snd hpair).symm
  subst hs
  subst hi
  refine ⟨rfl, rfl, rfl, ?_, ?_, ?_, ?_, ?_⟩ <;>
    simp [Indexer.shift, IndexerDb.shift, List.map_map, Function.comp_def]

/-- Witness for C1: two empty-range runs from differently-seeded fresh
databases, compared through the theorem. -/
theorem replayDeterminism_witness :
    (run_to_inner trivialSM () (freshIndexerWith false 1 1 1) blockArchive none
        6 (some 5) 0).1 = .ok ((), freshIndexerWith false 1 1 1) ∧
    (run_to_inner trivialSM () (freshIndexerWith false (1 + 4) (1 + 5) (1 + 6))
        blockArchive none 6 (some 5) 0).1
      = .ok ((), freshIndexerWith false (1 + 4) (1 + 5) (1 + 6)) ∧
    ((freshIndexerWith false (1 + 4) (1 + 5) (1 + 6)).hashesPassed
      = (freshIndexerWith false 1 1 1).hashesPassed) ∧
    ((freshIndexerWith false (1 + 4) (1 + 5) (1 + 6)).db.events.map (fun r => r.kind)
      = (freshIndexerWith false 1 1 1).db.events.map (fun r => r.kind)) := by
  refine ⟨rfl, rfl, ?_, ?_⟩
  · exact (replayDeterminism trivialSM () blockArchive none 6 (some 5) 0 false
      1 1 1 4 5 6 () () (freshIndexerWith false 1 1 1)
      (freshIndexerWith false (1 + 4) (1 + 5) (1 + 6)) rfl rfl).2.2.2.1
  · exact (replayDeterminism trivialSM () blockArchive none 6 (some 5) 0 false
      1 1 1 4 5 6 () () (freshIndexerWith false 1 1 1)
      (freshIndexerWith false (1 + 4) (1 + 5) (1 + 6)) rfl rfl).2.2.2.2.2.1

/-- C2: Plan truncation on the concrete plan
`[(0, InitThenRunTo{genesis_height=1, version=V1, last_block=Some(100)}),
(100, Migrate{V1→V2}), (100, InitThenRunTo{genesis_height=101, version=V2,
last_block=None})]` with `start=Some(50)`, `stop=Some(150)` yields exactly
`[(50, RunTo{V1, last_block=Some(100)}), (100, Migrate{V1→V2}),
(100, InitThenRunTo{genesis_height=101, V2, last_block=Some(150)})]`:
steps below `start` are relocated to `start` with `InitThenRunTo` rewritten
to `RunTo` when `genesis_height ≤ start`, `Migrate` at or after `start` is
kept at its boundary, and a missing `last_block` is clamped to `stop`
(stated for every pair of versions standing for V1 and V2). -/
theorem planTruncationScenario (v1 v2 : Version) :
    RegenerationPlan.truncate
      ⟨[(0, .InitThenRunTo 1 v1 (some 100)),
        (100, .Migrate v1 v2),
        (100, .InitThenRunTo 101 v2 none)]⟩ (some 50) (some 150)
    = ⟨[(50, .RunTo v1 (some 100)),
        (100, .Migrate v1 v2),
        (100, .InitThenRunTo 101 v2 (some 150))]⟩ :=
  rfl

/-- C9: truncation with no bounds is the identity on each built-in chain
plan (`penumbra-1`, `penumbra-testnet-phobos-2`,
`penumbra-testnet-phobos-3`): the truncated plan has exactly the same
ordered list of `(start_height, step)` pairs as the original. -/
theorem truncateNoneIsIdentity :
    RegenerationPlan.penumbra_1.truncate none none = RegenerationPlan.penumbra_1 ∧
    RegenerationPlan.penumbra_testnet_phobos_2.truncate none none
      = RegenerationPlan.penumbra_testnet_phobos_2 ∧
    RegenerationPlan.penumbra_testnet_phobos_3.truncate none none
      = RegenerationPlan.penumbra_testnet_phobos_3 :=
  ⟨RegenerationPlan.truncate_none_none _, RegenerationPlan.truncate_none_none _,
    RegenerationPlan.truncate_none_none _⟩

end Reindexer
